import Mathlib

/-!
Verification of the test-case-generator web application's core logic.

The TypeScript sources are shallowly embedded: pure helper functions become
Lean functions on `String` / `List Char`; `JSON.parse` is embedded as a total
fuel-based recursive-descent parser `parseJson` over the value type `JVal`
(integers stand for JSON numbers: the application's contracts only ever carry
integers in numeric positions, and no claim exercises fractional or exponent
literals, which this model rejects while `JSON.parse` accepts them; the model
also does not reject leading zeros in numerals, which `JSON.parse` does);
`JSON.stringify` with two-space indentation is embedded as
`stringifyTestCases`; the mutable `Set<string>` of claimed identifiers is
embedded by explicit state passing; backend (LLM) calls are embedded as
oracle parameters of type `Except Unit String` (`.ok s` = the call returned
content `s`, `.error ()` = the call threw).

Sources embedded here:
  src/lib/utils/normalizeTestCase.ts   (normalizeTestCase, normalizeTestCases)
  src/lib/utils/parseLLMResponse.ts    (cleanLLMJsonResponse,
                                        parseTestCasesFromLLM, parseTestCaseFromLLM)
  src/lib/tokenCounter.ts              (estimateTokens)
  src/lib/providers/index.ts           (createProvider)
  src/app/api/refine-test-case/route.ts (the parse/repair loop and the
                                        testId-preserving normalization)
  src/app/api/add-more-cases/route.ts  (summarizeExistingTestCases and the
                                        token-threshold context selection)
-/

/-! ### Character classes

JavaScript's regex class \s and the character set trimmed by String.trim:
ASCII whitespace, NBSP, Ogham space mark, the U+2000 range, and the other
Unicode space separators, plus the BOM. -/

def isJsWs (c : Char) : Bool :=
  c == ' ' || c == '\t' || c == '\n' || c == '\x0b' || c == '\x0c' || c == '\r' ||
  c.toNat == 0xa0 || c.toNat == 0x1680 ||
  (0x2000 ≤ c.toNat && c.toNat ≤ 0x200a) ||
  c.toNat == 0x2028 || c.toNat == 0x2029 || c.toNat == 0x202f ||
  c.toNat == 0x205f || c.toNat == 0x3000 || c.toNat == 0xfeff

def isDecDigit (c : Char) : Bool := '0' ≤ c && c ≤ '9'

/-- Value of a decimal digit character. -/
def decVal (c : Char) : Nat := c.toNat - '0'.toNat

/-- Decimal digit character for a digit value (0-9). -/
def decChar (d : Nat) : Char :=
  match d with
  | 0 => '0' | 1 => '1' | 2 => '2' | 3 => '3' | 4 => '4'
  | 5 => '5' | 6 => '6' | 7 => '7' | 8 => '8' | _ => '9'

/-- Lowercase hexadecimal digit character for a value below 16
(the case JSON.stringify emits in \u escapes). -/
def hexChar (d : Nat) : Char :=
  match d with
  | 0 => '0' | 1 => '1' | 2 => '2' | 3 => '3' | 4 => '4'
  | 5 => '5' | 6 => '6' | 7 => '7' | 8 => '8' | 9 => '9'
  | 10 => 'a' | 11 => 'b' | 12 => 'c' | 13 => 'd' | 14 => 'e' | _ => 'f'

/-- Value of a hexadecimal digit character, upper or lower case. -/
def hexVal? (c : Char) : Option Nat :=
  if '\x30' ≤ c && c ≤ '\x39' then some (c.toNat - '\x30'.toNat)
  else if '\x61' ≤ c && c ≤ '\x66' then some (c.toNat - '\x61'.toNat + 10)
  else if '\x41' ≤ c && c ≤ '\x46' then some (c.toNat - '\x41'.toNat + 10)
  else none

/-- Leading JS whitespace removed. -/
def skipWsL (l : List Char) : List Char := l.dropWhile isJsWs

/-- JavaScript String.trim on a character list. -/
def jsTrimL (l : List Char) : List Char := (skipWsL ((skipWsL l.reverse).reverse))

/-- JavaScript String.trim. -/
def jsTrim (s : String) : String := String.mk (jsTrimL s.data)

/-! ### JSON values

The result type of the embedded JSON.parse.  Numbers are integers (see the
header comment). -/

inductive JVal where
  | null
  | bool (b : Bool)
  | num (n : Int)
  | str (s : String)
  | arr (elems : List JVal)
  | obj (fields : List (String × JVal))

/-! ### The embedded JSON.parse

A fuel-based recursive-descent parser; fuel strictly above the input length
always suffices (proved below for rendered values). -/

def unescCh (c : Char) : Option Char :=
  match c with
  | '\x22' => some '\x22'
  | '\x5c' => some '\x5c'
  | '\x2f' => some '\x2f'
  | '\x6e' => some '\x0a'
  | '\x72' => some '\x0d'
  | '\x74' => some '\x09'
  | '\x62' => some '\x08'
  | '\x66' => some '\x0c'
  | _ => none

def hexQuad (a b c d : Char) : Option Nat := do
  let va ← hexVal? a
  let vb ← hexVal? b
  let vc ← hexVal? c
  let vd ← hexVal? d
  return ((va * 16 + vb) * 16 + vc) * 16 + vd

/-- String-body scanner: everything after the opening quote, up to and
including the closing quote.  Rejects raw control characters and lone
backslashes, decodes the escape sequences JSON.parse accepts; a \u escape
denoting a surrogate code unit is rejected (such a code unit is not a
Unicode scalar value and has no Lean counterpart). -/
def scanStrBody (acc : List Char) : List Char → Option (String × List Char)
  | '"' :: rest => some (String.mk acc.reverse, rest)
  | '\\' :: 'u' :: a :: b :: c :: d :: rest =>
    match hexQuad a b c d with
    | some n =>
      if n < 0xd800 ∨ 0xe000 ≤ n then scanStrBody (Char.ofNat n :: acc) rest
      else none
    | none => none
  | '\\' :: e :: rest =>
    match unescCh e with
    | some ch => scanStrBody (ch :: acc) rest
    | none => none
  | c :: rest =>
    if c.toNat < 0x20 ∨ c = '\\' then none else scanStrBody (c :: acc) rest
  | [] => none

/-- Digit-run scanner for numerals. -/
def grabDigits (l : List Char) : List Char × List Char :=
  (l.takeWhile isDecDigit, l.dropWhile isDecDigit)

def natOfDigits (ds : List Char) : Nat :=
  ds.foldl (fun a c => 10 * a + decVal c) 0

/-- Integer numeral scanner: optional minus sign, then a nonempty digit run. -/
def scanIntNum : List Char → Option (Int × List Char)
  | '-' :: r =>
    let (ds, rest) := grabDigits r
    if ds.isEmpty then none else some (-(natOfDigits ds : Int), rest)
  | l =>
    let (ds, rest) := grabDigits l
    if ds.isEmpty then none else some ((natOfDigits ds : Int), rest)

mutual

def jvParse (fuel : Nat) (l : List Char) : Option (JVal × List Char) :=
  match fuel with
  | 0 => none
  | fuel + 1 =>
    match skipWsL l with
    | 'n' :: 'u' :: 'l' :: 'l' :: r => some (.null, r)
    | 't' :: 'r' :: 'u' :: 'e' :: r => some (.bool true, r)
    | 'f' :: 'a' :: 'l' :: 's' :: 'e' :: r => some (.bool false, r)
    | '"' :: r =>
      match scanStrBody [] r with
      | some (s, r2) => some (.str s, r2)
      | none => none
    | '[' :: r =>
      match skipWsL r with
      | ']' :: r2 => some (.arr [], r2)
      | other =>
        match jvParseItems fuel other with
        | some (es, r2) => some (.arr es, r2)
        | none => none
    | '{' :: r =>
      match skipWsL r with
      | '}' :: r2 => some (.obj [], r2)
      | other =>
        match jvParseFields fuel other with
        | some (fs, r2) => some (.obj fs, r2)
        | none => none
    | c :: r =>
      if c = '-' || isDecDigit c then
        match scanIntNum (c :: r) with
        | some (n, r2) => some (.num n, r2)
        | none => none
      else none
    | [] => none

def jvParseItems (fuel : Nat) (l : List Char) : Option (List JVal × List Char) :=
  match fuel with
  | 0 => none
  | fuel + 1 =>
    match jvParse fuel l with
    | none => none
    | some (v, r) =>
      match skipWsL r with
      | ',' :: r2 =>
        match jvParseItems fuel (skipWsL r2) with
        | some (vs, r3) => some (v :: vs, r3)
        | none => none
      | ']' :: r2 => some ([v], r2)
      | _ => none

def jvParseFields (fuel : Nat) (l : List Char) : Option (List (String × JVal) × List Char) :=
  match fuel with
  | 0 => none
  | fuel + 1 =>
    match skipWsL l with
    | '"' :: r =>
      match scanStrBody [] r with
      | none => none
      | some (k, r1) =>
        match skipWsL r1 with
        | ':' :: r2 =>
          match jvParse fuel (skipWsL r2) with
          | none => none
          | some (v, r3) =>
            match skipWsL r3 with
            | ',' :: r4 =>
              match jvParseFields fuel (skipWsL r4) with
              | some (fs, r5) => some ((k, v) :: fs, r5)
              | none => none
            | '}' :: r4 => some ([(k, v)], r4)
            | _ => none
        | _ => none
    | _ => none

end

/-- The embedded JSON.parse: a whole-input parse (surrounding whitespace
allowed, trailing content rejected). -/
def parseJson (s : String) : Option JVal :=
  match jvParse (s.data.length + 1) s.data with
  | some (v, r) => if skipWsL r = [] then some v else none
  | none => none

/-! ### Canonical rendering of JSON values

The compact form (no inter-token whitespace), with the escaping rules of
JSON.stringify: named escapes for quote, backslash and the common control
characters, \u00XX for the remaining control characters, everything else
verbatim. -/

def escCh (c : Char) : List Char :=
  match c with
  | '\x22' => ['\x5c', '\x22']
  | '\x5c' => ['\x5c', '\x5c']
  | '\x0a' => ['\x5c', '\x6e']
  | '\x0d' => ['\x5c', '\x72']
  | '\x09' => ['\x5c', '\x74']
  | '\x08' => ['\x5c', '\x62']
  | '\x0c' => ['\x5c', '\x66']
  | c =>
    if c.toNat < 0x20 then
      ['\x5c', '\x75', '\x30', '\x30', hexChar (c.toNat / 16), hexChar (c.toNat % 16)]
    else [c]

/-- Escaped character list of a string body. -/
def escBody (s : String) : List Char := (s.data.map escCh).flatten

/-- A rendered string literal: quote, escaped body, quote. -/
def renderStrL (s : String) : List Char := '"' :: (escBody s ++ ['"'])

/-- Digit-peeling worker with explicit fuel (any fuel above the value works). -/
def natCharsGo : Nat → Nat → List Char
  | 0, _ => []
  | fuel + 1, n =>
    if n < 10 then [decChar n]
    else natCharsGo fuel (n / 10) ++ [decChar (n % 10)]

/-- Decimal digit characters of a natural number, most significant first. -/
def natChars (n : Nat) : List Char := natCharsGo (n + 1) n

/-- The characters JavaScript String(n) produces for an integer. -/
def intChars (i : Int) : List Char :=
  (if i < 0 then ['-'] else []) ++ natChars i.natAbs

mutual

def jvRender : JVal → List Char
  | .null => ['\x6e', '\x75', '\x6c', '\x6c']
  | .bool true => ['\x74', '\x72', '\x75', '\x65']
  | .bool false => ['\x66', '\x61', '\x6c', '\x73', '\x65']
  | .num n => intChars n
  | .str s => renderStrL s
  | .arr es => '[' :: (jvRenderItems es ++ [']'])
  | .obj fs => '{' :: (jvRenderFields fs ++ ['}'])

def jvRenderItems : List JVal → List Char
  | [] => []
  | e :: es => jvRender e ++ jvRenderItemsTail es

def jvRenderItemsTail : List JVal → List Char
  | [] => []
  | e :: es => ',' :: (jvRender e ++ jvRenderItemsTail es)

def jvRenderFields : List (String × JVal) → List Char
  | [] => []
  | (k, v) :: fs => renderStrL k ++ ':' :: (jvRender v ++ jvRenderFieldsTail fs)

def jvRenderFieldsTail : List (String × JVal) → List Char
  | [] => []
  | (k, v) :: fs => ',' :: (renderStrL k ++ ':' :: (jvRender v ++ jvRenderFieldsTail fs))

end

/-- Canonical compact rendering of a JSON value. -/
def renderJson (v : JVal) : String := String.mk (jvRender v)

/-- A list that cannot extend a numeral: empty or with a non-digit head. -/
def noDigitHead (l : List Char) : Bool :=
  match l with
  | [] => true
  | c :: _ => !(isDecDigit c)

/-- Escaped character list of a character-list body. -/
def escBodyL (l : List Char) : List Char := (l.map escCh).flatten

/-! ### The targeted missing-comma repair

The regex replace
  /"preconditions":\s*"([^"]*)"\s*"steps"/g  ->  '"preconditions": "$1", "steps"'
from cleanLLMJsonResponse.  Each alternative in the pattern is
deterministic (the greedy \s* and [^"]* runs cannot backtrack into a
following literal quote), so the regex is embedded as a scanner that, at
each position, either recognizes the full pattern and emits the repaired
text or copies one character. -/

def patLead : List Char := "\"preconditions\":".data

def patSteps : List Char := "\"steps\"".data

/-- Strip an exact literal from the front of the input. -/
def dropLit : List Char → List Char → Option (List Char)
  | [], l => some l
  | p :: ps, c :: cs => if c = p then dropLit ps cs else none
  | _ :: _, [] => none

def notQuote (c : Char) : Bool := !(c == '"')

/-- Match the defect pattern at the start of the input; on success return the
captured group and the remainder after the match. -/
def matchDefectAt (l : List Char) : Option (List Char × List Char) :=
  match dropLit patLead l with
  | none => none
  | some l1 =>
    match l1.dropWhile isJsWs with
    | '"' :: l3 =>
      match l3.dropWhile notQuote with
      | '"' :: l5 =>
        match dropLit patSteps (l5.dropWhile isJsWs) with
        | some l7 => some (l3.takeWhile notQuote, l7)
        | none => none
      | _ => none
    | _ => none

/-- The replacement text for one match ($1 = the captured group). -/
def defectFix (body : List Char) : List Char :=
  "\"preconditions\": \"".data ++ body ++ "\", \"steps\"".data

/-- The global regex replace: leftmost scan, non-overlapping, resuming after
each match.  Structural on fuel; a match always consumes at least one
character, so fuel = length suffices (replaceDefectGo_id below works at any
sufficient fuel). -/
def replaceDefectGo : Nat → List Char → List Char
  | 0, l => l
  | _ + 1, [] => []
  | fuel + 1, c :: cs =>
    match matchDefectAt (c :: cs) with
    | some (body, rest) => defectFix body ++ replaceDefectGo fuel rest
    | none => c :: replaceDefectGo fuel cs

def replaceDefectL (l : List Char) : List Char := replaceDefectGo l.length l

/-! ### Rendered JSON never contains the defect pattern

Any successful match of the defect pattern contains a three-character window
(ws-or-quote, '"', 's'); a character-window scan shows canonical rendered
JSON has no such window, so the repair pass is the identity on it. -/

def badStep (x y z : Char) : Bool := (isJsWs x || x == '"') && y == '"' && z == 's'

def scan3 (x y : Char) : List Char → Bool
  | [] => true
  | z :: rest => !badStep x y z && scan3 y z rest

def st2 (x y : Char) : List Char → Char × Char
  | [] => (x, y)
  | z :: rest => st2 y z rest

/-- State invariant inside a rendered string body: a quote in the last
position is always escaped. -/
def stInv (p q : Char) : Prop := q = '"' → (isJsWs p = false ∧ p ≠ '"')

/-! ### cleanLLMJsonResponse (src/lib/utils/parseLLMResponse.ts)

  let cleaned = text.trim();
  if (cleaned.startsWith("```" + "")) {
    cleaned = cleaned.replace(/^```(?:json)?\s* /i, "");
    cleaned = cleaned.replace(/\s*```$/i, "");
  }
  cleaned = cleaned.replace(/"preconditions":\s*"([^"]*)"\s*"steps"/g, ...);
-/

def asciiLower (c : Char) : Char :=
  if 'A' ≤ c && c ≤ 'Z' then Char.ofNat (c.toNat + 32) else c

def startsFence (l : List Char) : Bool :=
  match l with
  | '`' :: '`' :: '`' :: _ => true
  | _ => false

/-- The replace of the anchored pattern ^(three backticks)(?:json)?\s* under
the i flag: the optional tag group is greedy, the whitespace run greedy. -/
def stripOpenFence (l : List Char) : List Char :=
  match l with
  | '`' :: '`' :: '`' :: r =>
    match r with
    | a :: b :: c :: d :: r2 =>
      if asciiLower a == 'j' && asciiLower b == 's' && asciiLower c == 'o' &&
          asciiLower d == 'n' then skipWsL r2
      else skipWsL r
    | _ => skipWsL r
  | _ => l

/-- The replace of \s*(three backticks)$: the leftmost match ending at the end
of the input is the final three backticks plus the maximal whitespace run
before them. -/
def stripCloseFence (l : List Char) : List Char :=
  match l.reverse with
  | '`' :: '`' :: '`' :: r => (r.dropWhile isJsWs).reverse
  | _ => l

def cleanLLMJsonResponseL (l : List Char) : List Char :=
  let c1 := jsTrimL l
  let c2 := if startsFence c1 then stripCloseFence (stripOpenFence c1) else c1
  replaceDefectL c2

/-- Embedded cleanLLMJsonResponse. -/
def cleanLLMJsonResponse (text : String) : String :=
  String.mk (cleanLLMJsonResponseL text.data)

/-- Embedded parseTestCasesFromLLM: clean, JSON.parse, require an array. -/
def parseTestCasesFromLLM (generatedText : String) : Except String (List JVal) :=
  match parseJson (cleanLLMJsonResponse generatedText) with
  | none => .error "SyntaxError: JSON.parse failed"
  | some (.arr es) => .ok es
  | some _ => .error "LLM response is not a valid array of test cases"

/-- Embedded parseTestCaseFromLLM: clean, JSON.parse, reject arrays, require
an object (null fails the JS object check as well). -/
def parseTestCaseFromLLM (generatedText : String) : Except String JVal :=
  match parseJson (cleanLLMJsonResponse generatedText) with
  | none => .error "SyntaxError: JSON.parse failed"
  | some (.arr _) => .error "Expected single test case object, got array"
  | some (.obj fs) => .ok (.obj fs)
  | some _ => .error "LLM response is not a valid test case object"

/-! ### Fence-wrapped rendered arrays survive cleaning -/

def fenceWrapL (tag : List Char) (l : List Char) : List Char :=
  '`' :: '`' :: '`' :: (tag ++ '\n' :: (l ++ '\n' :: '`' :: '`' :: '`' :: []))

/-- A tag the (?:json)? group strips: absent, or the four letters of json in
any case. -/
def fenceTagOk (tag : List Char) : Prop :=
  tag = [] ∨ ∃ a b c d, tag = [a, b, c, d] ∧ asciiLower a = 'j' ∧ asciiLower b = 's' ∧
    asciiLower c = 'o' ∧ asciiLower d = 'n'

/-! ### estimateTokens (src/lib/tokenCounter.ts)

  if (!text) return 0;
  return Math.ceil(text.length / 4);

String lengths count Unicode scalar values here (JS counts UTF-16 units; no
claim exercises astral characters). -/

def estimateTokens (text : String) : Nat :=
  if text = "" then 0 else (text.length + 3) / 4

/-! ### The test-case record (src/types/TestCase.ts)

priority and type are strings at runtime (the TS union annotation is applied
by unchecked cast in normalizeTestCase). -/

structure TestCase where
  testId : String
  title : String
  description : String
  preconditions : String
  steps : List String
  expectedResult : String
  priority : String
  type : String
deriving DecidableEq

/-- A runtime value of the TS type Partial of TestCase: each field either
absent (undefined) or of its declared type.  steps none covers both an
absent field and the non-array values Array.isArray rejects. -/
structure RawTestCase where
  testId : Option String := none
  title : Option String := none
  description : Option String := none
  preconditions : Option String := none
  steps : Option (List String) := none
  expectedResult : Option String := none
  priority : Option String := none
  type : Option String := none
deriving DecidableEq

/-- JavaScript (a || b) for a : string-or-undefined: the default wins on
undefined and on the empty string, the only falsy string. -/
def jsOr (o : Option String) (d : String) : String :=
  match o with
  | none => d
  | some s => if s = "" then d else s

/-- Decimal digits of n, as JavaScript String(n) produces. -/
def numStr (n : Nat) : String := String.mk (natChars n)

/-- String(n).padStart(3, "0"). -/
def padStart3 (l : List Char) : List Char :=
  if l.length < 3 then List.replicate (3 - l.length) '0' ++ l else l

/-- The candidate identifier for number n: "TC-" + String(n).padStart(3,"0"). -/
def tcId (n : Nat) : String := String.mk ("TC-".data ++ padStart3 (natChars n))

/-! ### normalizeTestCase (src/lib/utils/normalizeTestCase.ts)

The while loop (probe TC-counter while the set claims it, counter starting
at index+1) is embedded with fuel S.length + 1; probeFree_found below proves
this fuel always suffices, so the embedding and the unbounded loop agree. -/

def probeFree (S : List String) : Nat → Nat → Nat
  | 0, c => c
  | fuel + 1, c => if tcId c ∈ S then probeFree S fuel (c + 1) else c

def normalizeTestCase (tc : RawTestCase) (index : Nat) (existingIds : Option (List String)) :
    TestCase × Option (List String) :=
  let testId0 := jsOr tc.testId (tcId (index + 1))
  let record : String → TestCase := fun finalId =>
    { testId := finalId
      title := jsOr tc.title ("Test Case " ++ numStr (index + 1))
      description := jsOr tc.description ""
      preconditions := jsOr tc.preconditions ""
      steps := match tc.steps with
        | some l => l
        | none => []
      expectedResult := jsOr tc.expectedResult ""
      priority := jsOr tc.priority "Medium"
      type := jsOr tc.type "Functional" }
  match existingIds with
  | none => (record testId0, none)
  | some S =>
    let finalId := if testId0 ∈ S then tcId (probeFree S (S.length + 1) (index + 1)) else testId0
    (record finalId, some (finalId :: S))

def normalizeTestCasesGo (base : Nat) (ids : List String) (i : Nat) :
    List RawTestCase → List TestCase
  | [] => []
  | tc :: rest =>
    let p := normalizeTestCase tc (base + i + 1) (some ids)
    p.1 :: normalizeTestCasesGo base (p.2.getD ids) (i + 1) rest

/-- Embedded normalizeTestCases: seeds the claimed-identifier set with the
existing records' testIds and passes existing.length + index + 1 as the
position, exactly as the source does. -/
def normalizeTestCases (testCases : List RawTestCase)
    (existingTestCases : List TestCase := []) : List TestCase :=
  normalizeTestCasesGo existingTestCases.length (existingTestCases.map (fun tc => tc.testId))
    0 testCases

/-! ### createProvider (src/lib/providers/index.ts) -/

structure ProviderConfig where
  provider : String
  apiKey : Option String := none
  model : Option String := none
  endpoint : Option String := none
  deployment : Option String := none
  apiVersion : Option String := none
  baseUrl : Option String := none
deriving DecidableEq

/-- JavaScript truthiness of a string-or-undefined field. -/
def jsPresent (o : Option String) : Bool :=
  match o with
  | none => false
  | some s => s ≠ ""

inductive ProviderInstance where
  | openai (apiKey : String) (model : Option String)
  | azure (apiKey endpoint deployment apiVersion : String)
  | ollama (model baseUrl : Option String)
  | gemini (apiKey : String) (model : Option String)
deriving DecidableEq

/-- The provider factory: pure construction, no network; a thrown
configuration error is the .error case. -/
def createProvider (config : ProviderConfig) : Except String ProviderInstance :=
  if config.provider = "openai" then
    if jsPresent config.apiKey then .ok (.openai (config.apiKey.getD "") config.model)
    else .error "OpenAI API key is required"
  else if config.provider = "azure" then
    if !(jsPresent config.apiKey) || !(jsPresent config.endpoint) ||
        !(jsPresent config.deployment) || !(jsPresent config.apiVersion) then
      .error "Azure OpenAI requires apiKey, endpoint, deployment, and apiVersion"
    else
      .ok (.azure (config.apiKey.getD "") (config.endpoint.getD "") (config.deployment.getD "")
        (config.apiVersion.getD ""))
  else if config.provider = "ollama" then
    .ok (.ollama config.model config.baseUrl)
  else if config.provider = "gemini" then
    if jsPresent config.apiKey then .ok (.gemini (config.apiKey.getD "") config.model)
    else .error "Google Gemini API key is required"
  else .error ("Unsupported provider: " ++ config.provider)

/-! ### Reading parsed JSON as a Partial TestCase

The routes cast JSON.parse output and read fields dynamically; this decode
models those reads for contract-shaped payloads (fields of the declared
types, or absent).  Duplicate keys resolve to the last occurrence, as in
JSON.parse. -/

def lookupField (fs : List (String × JVal)) (k : String) : Option JVal :=
  match fs.reverse.find? (fun p => p.1 == k) with
  | some p => some p.2
  | none => none

def fieldStr (j : JVal) (k : String) : Option String :=
  match j with
  | .obj fs =>
    match lookupField fs k with
    | some (.str s) => some s
    | _ => none
  | _ => none

def fieldStrList (j : JVal) (k : String) : Option (List String) :=
  match j with
  | .obj fs =>
    match lookupField fs k with
    | some (.arr es) => some (es.filterMap (fun e => match e with
        | .str s => some s
        | _ => none))
    | _ => none
  | _ => none

def jvToRaw (j : JVal) : RawTestCase :=
  { testId := fieldStr j "testId"
    title := fieldStr j "title"
    description := fieldStr j "description"
    preconditions := fieldStr j "preconditions"
    steps := fieldStrList j "steps"
    expectedResult := fieldStr j "expectedResult"
    priority := fieldStr j "priority"
    type := fieldStr j "type" }

/-! ### POST /api/generate-cases, parse stage (src/app/api/generate-cases/route.ts)

  const parsed = parseTestCasesFromLLM(generatedText);
  testCases = normalizeTestCases(parsed);

One parse attempt; a failure returns the 500 response, no repair call. -/

def generateCasesParse (generatedText : String) : Except String (List TestCase) :=
  match parseTestCasesFromLLM generatedText with
  | .error e => .error e
  | .ok es => .ok (normalizeTestCases (es.map jvToRaw))

/-! ### POST /api/refine-test-case, parse/repair loop
(src/app/api/refine-test-case/route.ts, lines 104-157)

correction is the backend's answer to the one possible JSON-correction call.
The source stores the corrective content in generatedText but the loop
re-parses cleanedText, which is never updated from it (its own comment says
the loop will retry with the corrected response); the embedding reproduces
that behaviour. -/

/-- The /\x7b[\s\S]*\x7d/ extraction: from the first opening brace to the
last closing brace, if such a span exists; otherwise no change. -/
def braceSliceL (l : List Char) : List Char :=
  match l.dropWhile (fun c => !(c == '{')) with
  | [] => l
  | rest =>
    match rest.reverse.dropWhile (fun c => !(c == '}')) with
    | [] => l
    | rrest => rrest.reverse

def braceSlice (s : String) : String := String.mk (braceSliceL s.data)

structure RefineLoopResult where
  outcome : Except String JVal
  parseAttempts : Nat
  correctionCalls : Nat

def refineParseLoop (generatedText : String) (correction : Except Unit String) :
    RefineLoopResult :=
  let cleaned1 := braceSlice (jsTrim generatedText)
  match parseTestCaseFromLLM cleaned1 with
  | .ok v => ⟨.ok v, 0, 0⟩
  | .error _ =>
    match correction with
    | .ok _ =>
      match parseTestCaseFromLLM (braceSlice cleaned1) with
      | .ok v => ⟨.ok v, 1, 1⟩
      | .error e2 => ⟨.error e2, 2, 1⟩
    | .error _ => ⟨.error "Failed to parse JSON after all attempts", 1, 1⟩

/-- The refined-record normalization (route lines 158-164):
  normalizeTestCase(with spread of parsed and testId from parsed.testId or testCase.testId, 0). -/
def refineNormalize (parsed : RawTestCase) (input : TestCase) : TestCase :=
  (normalizeTestCase { parsed with testId := some (jsOr parsed.testId input.testId) } 0 none).1

/-! ### POST /api/add-more-cases, context selection
(src/app/api/add-more-cases/route.ts)

JSON.stringify(existingTestCases, null, 2) pretty-prints with two-space
indentation; normalized records carry their keys in the declared order, which
the serializer reproduces. -/

def ind (n : Nat) : List Char := List.replicate n ' '

def stringifyStepsL (steps : List String) (depth : Nat) : List Char :=
  match steps with
  | [] => ['[', ']']
  | s0 :: rest =>
    '[' :: '\n' :: (ind ((depth + 1) * 2) ++ renderStrL s0
      ++ (rest.map (fun s => ',' :: '\n' :: (ind ((depth + 1) * 2) ++ renderStrL s))).flatten
      ++ '\n' :: (ind (depth * 2) ++ [']']))

def stringifyFieldL (name : String) (val : List Char) (depth : Nat) : List Char :=
  ind (depth * 2) ++ renderStrL name ++ ':' :: ' ' :: val

def stringifyTestCaseL (tc : TestCase) (depth : Nat) : List Char :=
  '{' :: '\n' ::
  (stringifyFieldL "testId" (renderStrL tc.testId) (depth + 1) ++ ',' :: '\n' ::
  (stringifyFieldL "title" (renderStrL tc.title) (depth + 1) ++ ',' :: '\n' ::
  (stringifyFieldL "description" (renderStrL tc.description) (depth + 1) ++ ',' :: '\n' ::
  (stringifyFieldL "preconditions" (renderStrL tc.preconditions) (depth + 1) ++ ',' :: '\n' ::
  (stringifyFieldL "steps" (stringifyStepsL tc.steps (depth + 1)) (depth + 1) ++ ',' :: '\n' ::
  (stringifyFieldL "expectedResult" (renderStrL tc.expectedResult) (depth + 1) ++ ',' :: '\n' ::
  (stringifyFieldL "priority" (renderStrL tc.priority) (depth + 1) ++ ',' :: '\n' ::
  (stringifyFieldL "type" (renderStrL tc.type) (depth + 1) ++ '\n' ::
  (ind (depth * 2) ++ ['}'])))))))))

def stringifyTestCasesL (l : List TestCase) : List Char :=
  match l with
  | [] => ['[', ']']
  | t0 :: rest =>
    '[' :: '\n' :: (ind 2 ++ stringifyTestCaseL t0 1
      ++ (rest.map (fun t => ',' :: '\n' :: (ind 2 ++ stringifyTestCaseL t 1))).flatten
      ++ '\n' :: [']'])

/-- JSON.stringify(testCases, null, 2). -/
def stringifyTestCases (l : List TestCase) : String := String.mk (stringifyTestCasesL l)

def TOKEN_LIMIT_THRESHOLD : Nat := 5000

/-- summarizeExistingTestCases: one backend call; on failure fall back to the
first 2000 characters of the raw serialization. -/
def summarizeExistingTestCases (existing : List TestCase) (oracle : Except Unit String) :
    String :=
  let testCasesJson := stringifyTestCases existing
  match oracle with
  | .ok content => jsTrim content
  | .error _ =>
    "Summary of " ++ numStr existing.length ++ " existing test cases:\n"
      ++ String.mk (testCasesJson.data.take 2000) ++ "..."

inductive ContextForPrompt where
  | verbatim (l : List TestCase)
  | synopsis (s : String)

/-- The route's threshold check: estimate the serialized set's tokens; above
the threshold make exactly one compression call, otherwise pass the list
through.  The second component counts backend compression calls. -/
def addMoreContext (existing : List TestCase) (oracle : Except Unit String) :
    ContextForPrompt × Nat :=
  let existingTokens := estimateTokens (stringifyTestCases existing)
  if existingTokens > TOKEN_LIMIT_THRESHOLD then
    (.synopsis (summarizeExistingTestCases existing oracle), 1)
  else
    (.verbatim existing, 0)

/-- generateAddMoreTestCasesPrompt's existing-test-cases section: a string
context is spliced as a summary, a list is serialized verbatim. -/
def existingTestCasesText : ContextForPrompt → String
  | .synopsis s =>
    "EXISTING TEST CASES SUMMARY:\n" ++ s ++
      "\n\nIMPORTANT: The above is a summary. Generate test cases that are clearly different from what's described."
  | .verbatim l =>
    "EXISTING TEST CASES (" ++ numStr l.length ++ " total):\n" ++ stringifyTestCases l ++
      "\n\nIMPORTANT: Review these carefully and generate test cases that are DISTINCTLY different."

/-- A record large enough that its serialization alone exceeds the
add-more-cases token threshold (20100 characters is above 4 * 5000). -/
def c6big : TestCase :=
  { testId := "TC-001", title := "t", description := String.mk (List.replicate 20100 'a'),
    preconditions := "", steps := [], expectedResult := "", priority := "Medium",
    type := "Functional" }

/-! ### Round-trip lemmas: numerals -/

theorem decChar_spec (d : Nat) (h : d < 10) :
    decVal (decChar d) = d ∧ isDecDigit (decChar d) = true := by
  interval_cases d <;> exact ⟨by decide, by decide⟩

theorem natCharsGo_congr : ∀ (n f g : Nat), n < f → n < g → natCharsGo f n = natCharsGo g n := by
  intro n
  induction n using Nat.strong_induction_on with
  | _ n ih =>
    intro f g hf hg
    match f, g with
    | f + 1, g + 1 =>
      simp only [natCharsGo]
      by_cases h : n < 10
      · simp [h]
      · simp only [h, if_false]
        have hlt : n / 10 < n := Nat.div_lt_self (by omega) (by omega)
        rw [ih (n / 10) hlt f g (by omega) (by omega)]

theorem natChars_small {n : Nat} (h : n < 10) : natChars n = [decChar n] := by
  unfold natChars natCharsGo
  simp [h]

theorem natChars_big {n : Nat} (h : ¬ n < 10) :
    natChars n = natChars (n / 10) ++ [decChar (n % 10)] := by
  have hlt : n / 10 < n := Nat.div_lt_self (by omega) (by omega)
  show natCharsGo (n + 1) n = _
  rw [natCharsGo, if_neg h, natCharsGo_congr (n / 10) n (n / 10 + 1) (by omega) (by omega)]
  rfl

theorem natChars_ne_nil (n : Nat) : natChars n ≠ [] := by
  by_cases h : n < 10
  · simp [natChars_small h]
  · simp [natChars_big h]

theorem natChars_digits (n : Nat) : ∀ c ∈ natChars n, isDecDigit c = true := by
  induction n using Nat.strongRecOn with
  | _ n ih =>
    intro c hc
    by_cases h : n < 10
    · rw [natChars_small h] at hc
      simp only [List.mem_singleton] at hc
      exact hc ▸ (decChar_spec n h).2
    · rw [natChars_big h] at hc
      rcases List.mem_append.mp hc with h1 | h2
      · exact ih (n / 10) (Nat.div_lt_self (by omega) (by omega)) c h1
      · simp only [List.mem_singleton] at h2
        exact h2 ▸ (decChar_spec (n % 10) (Nat.mod_lt _ (by omega))).2

theorem natOfDigits_append_one (a : List Char) (c : Char) :
    natOfDigits (a ++ [c]) = 10 * natOfDigits a + decVal c := by
  simp [natOfDigits, List.foldl_append]

theorem natOfDigits_natChars (n : Nat) : natOfDigits (natChars n) = n := by
  induction n using Nat.strongRecOn with
  | _ n ih =>
    by_cases h : n < 10
    · rw [natChars_small h]
      simp [natOfDigits, (decChar_spec n h).1]
    · rw [natChars_big h, natOfDigits_append_one,
          ih (n / 10) (Nat.div_lt_self (by omega) (by omega)),
          (decChar_spec (n % 10) (Nat.mod_lt _ (by omega))).1]
      omega

theorem grabDigits_stop {l : List Char} (h : noDigitHead l = true) :
    grabDigits l = ([], l) := by
  match l with
  | [] => rfl
  | c :: t =>
    simp only [noDigitHead, Bool.not_eq_true'] at h
    simp [grabDigits, List.takeWhile_cons, List.dropWhile_cons, h]

theorem grabDigits_run (ds : List Char) (hds : ∀ c ∈ ds, isDecDigit c = true)
    (rest : List Char) (hrest : noDigitHead rest = true) :
    grabDigits (ds ++ rest) = (ds, rest) := by
  induction ds with
  | nil => simpa using grabDigits_stop hrest
  | cons c t ih =>
    have hc : isDecDigit c = true := hds c (by simp)
    have ht := ih (fun x hx => hds x (by simp [hx]))
    simp only [grabDigits, Prod.mk.injEq] at ht ⊢
    simp [List.takeWhile_cons, List.dropWhile_cons, hc, ht.1, ht.2]

theorem natChars_head (n : Nat) :
    ∃ c t, natChars n = c :: t ∧ isDecDigit c = true := by
  match h : natChars n with
  | [] => exact absurd h (natChars_ne_nil n)
  | c :: t => exact ⟨c, t, rfl, natChars_digits n c (h ▸ List.mem_cons_self ..)⟩

theorem isJsWs_ascii_false {c : Char} (h1 : 33 ≤ c.toNat) (h2 : c.toNat ≤ 126) :
    isJsWs c = false := by
  simp only [isJsWs, Bool.or_eq_false_iff, beq_eq_false_iff_ne, ne_eq,
    Bool.and_eq_false_iff, decide_eq_false_iff_not, not_le]
  repeat' apply And.intro
  all_goals first
  | (intro he; subst he; exact absurd h1 (by decide))
  | omega

theorem digit_facts {c : Char} (h : isDecDigit c = true) :
    c ≠ '-' ∧ isJsWs c = false ∧ c ≠ ']' ∧ c ≠ '}' ∧ c ≠ ',' ∧
    c ≠ 'n' ∧ c ≠ 't' ∧ c ≠ 'f' ∧ c ≠ '"' ∧ c ≠ '[' ∧ c ≠ '{' := by
  have h1 : '0' ≤ c ∧ c ≤ '9' := by
    simpa [isDecDigit] using h
  have hlo : 48 ≤ c.toNat := h1.1
  have hhi : c.toNat ≤ 57 := h1.2
  refine ⟨?_, isJsWs_ascii_false (by omega) (by omega), ?_, ?_, ?_, ?_, ?_, ?_, ?_, ?_, ?_⟩
  all_goals intro he
  all_goals subst he
  all_goals revert hlo hhi
  all_goals decide

theorem scanIntNum_minus (r : List Char) :
    scanIntNum ('-' :: r) =
      (let (ds, rest) := grabDigits r
       if ds.isEmpty then none else some (-(natOfDigits ds : Int), rest)) := rfl

theorem scanIntNum_other {c : Char} (hc : c ≠ '-') (t : List Char) :
    scanIntNum (c :: t) =
      (let (ds, rest) := grabDigits (c :: t)
       if ds.isEmpty then none else some ((natOfDigits ds : Int), rest)) := by
  rw [scanIntNum.eq_def]
  split
  next heq =>
    injection heq with h1 h2
    exact absurd h1 hc
  next h2 => rfl

theorem scanIntNum_intChars (i : Int) (rest : List Char) (hr : noDigitHead rest = true) :
    scanIntNum (intChars i ++ rest) = some (i, rest) := by
  by_cases hneg : i < 0
  · have harg : intChars i ++ rest = '-' :: (natChars i.natAbs ++ rest) := by
      simp [intChars, hneg]
    rw [harg, scanIntNum_minus, grabDigits_run _ (natChars_digits _) _ hr]
    simp only [List.isEmpty_eq_true, natChars_ne_nil, if_false]
    rw [natOfDigits_natChars]
    congr 1
    congr 1
    omega
  · obtain ⟨c, t, hct, hc⟩ := natChars_head i.natAbs
    have hnm := (digit_facts hc).1
    have harg : intChars i ++ rest = c :: (t ++ rest) := by
      simp [intChars, hneg, hct]
    rw [harg, scanIntNum_other hnm]
    have hgr : grabDigits (c :: (t ++ rest)) = (c :: t, rest) := by
      have := grabDigits_run (natChars i.natAbs) (natChars_digits _) rest hr
      rwa [hct, List.cons_append] at this
    rw [hgr]
    simp only [List.isEmpty_cons, if_false, Bool.false_eq_true, ite_false]
    rw [← hct, natOfDigits_natChars]
    congr 1
    congr 1
    omega

/-! ### Round-trip lemmas: string literals -/

theorem hexVal?_hexChar (d : Nat) (h : d < 16) : hexVal? (hexChar d) = some d := by
  interval_cases d <;> decide

theorem scanStrBody_lit {c : Char} (h1 : ¬ c.toNat < 0x20) (h2 : c ≠ '"') (h3 : c ≠ '\\')
    (acc rest : List Char) :
    scanStrBody acc (c :: rest) = scanStrBody (c :: acc) rest := by
  rw [scanStrBody.eq_def]
  split
  next heq =>
    injection heq with ha hb
    exact absurd ha h2
  next a b cc d r heq =>
    injection heq with ha hb
    exact absurd ha h3
  next e r heq =>
    injection heq with ha hb
    exact absurd ha h3
  next c' r heq =>
    injection heq with ha hb
    subst ha hb
    simp [h1, h3]
  next heq =>
    exact absurd heq (by simp)

theorem scanStrBody_u (acc rest : List Char) (a b c d : Char) (n : Nat)
    (hq : hexQuad a b c d = some n) (hn : n < 0xd800) :
    scanStrBody acc ('\\' :: 'u' :: a :: b :: c :: d :: rest) =
      scanStrBody (Char.ofNat n :: acc) rest := by
  simp only [scanStrBody, hq]
  rw [if_pos (Or.inl hn)]

theorem scanStrBody_esc (c : Char) (acc rest : List Char) :
    scanStrBody acc (escCh c ++ rest) = scanStrBody (c :: acc) rest := by
  rw [escCh.eq_def]
  split
  · rfl
  · rfl
  · rfl
  · rfl
  · rfl
  · rfl
  · rfl
  next h1 h2 h3 h4 h5 h6 h7 =>
    by_cases hlt : c.toNat < 0x20
    · simp only [if_pos hlt, List.cons_append, List.nil_append]
      have hdiv : c.toNat / 16 < 16 := by omega
      have hmod : c.toNat % 16 < 16 := Nat.mod_lt _ (by omega)
      have harith : ((0 * 16 + 0) * 16 + c.toNat / 16) * 16 + c.toNat % 16 = c.toNat := by
        omega
      have hq : hexQuad '0' '0' (hexChar (c.toNat / 16)) (hexChar (c.toNat % 16)) =
          some c.toNat := by
        simp only [hexQuad, show hexVal? '0' = some 0 from by decide,
          hexVal?_hexChar _ hdiv, hexVal?_hexChar _ hmod, Option.bind_eq_bind,
          Option.some_bind, Option.pure_def, Option.some.injEq]
        omega
      rw [scanStrBody_u acc rest _ _ _ _ _ hq (by omega), Char.ofNat_toNat]
    · simp only [if_neg hlt, List.cons_append, List.nil_append]
      exact scanStrBody_lit hlt h1 h2 acc rest

theorem escBody_eq (s : String) : escBody s = escBodyL s.data := rfl

theorem scanStrBody_escBodyL (l : List Char) : ∀ (acc rest : List Char),
    scanStrBody acc (escBodyL l ++ '"' :: rest) =
      some (String.mk (acc.reverse ++ l), rest) := by
  induction l with
  | nil =>
    intro acc rest
    simp [escBodyL, scanStrBody]
  | cons c t ih =>
    intro acc rest
    rw [show escBodyL (c :: t) = escCh c ++ escBodyL t from by simp [escBodyL],
        List.append_assoc, scanStrBody_esc, ih]
    simp

theorem scanStrBody_render (s : String) (rest : List Char) :
    scanStrBody [] (escBody s ++ '"' :: rest) = some (s, rest) := by
  rw [escBody_eq, scanStrBody_escBodyL]
  rfl

/-! ### Round-trip lemmas: whole values -/

theorem skipWsL_cons_false {c : Char} (h : isJsWs c = false) (t : List Char) :
    skipWsL (c :: t) = c :: t := by
  simp [skipWsL, List.dropWhile_cons, h]

theorem jvRender_head (v : JVal) :
    ∃ c t, jvRender v = c :: t ∧ isJsWs c = false ∧ c ≠ ']' ∧ c ≠ '}' := by
  cases v with
  | null => exact ⟨'n', ['u', 'l', 'l'], by simp [jvRender], by decide, by decide, by decide⟩
  | bool b =>
    cases b with
    | true =>
      exact ⟨'t', ['r', 'u', 'e'], by simp [jvRender], by decide, by decide, by decide⟩
    | false =>
      exact ⟨'f', ['a', 'l', 's', 'e'], by simp [jvRender], by decide, by decide, by decide⟩
  | str s =>
    exact ⟨'"', escBody s ++ ['"'], by simp [jvRender, renderStrL], by decide, by decide,
      by decide⟩
  | arr es =>
    exact ⟨'[', jvRenderItems es ++ [']'], by simp [jvRender], by decide, by decide, by decide⟩
  | obj fs =>
    exact ⟨'{', jvRenderFields fs ++ ['}'], by simp [jvRender], by decide, by decide, by decide⟩
  | num n =>
    by_cases hneg : n < 0
    · refine ⟨'-', natChars n.natAbs, ?_, by decide, by decide, by decide⟩
      simp [jvRender, intChars, hneg]
    · obtain ⟨c, t, hct, hc⟩ := natChars_head n.natAbs
      obtain ⟨_, hws, hbr, hbc, _⟩ := digit_facts hc
      refine ⟨c, t, ?_, hws, hbr, hbc⟩
      simp [jvRender, intChars, hneg, hct]

theorem skipWs_jvRender (v : JVal) (x : List Char) :
    skipWsL (jvRender v ++ x) = jvRender v ++ x := by
  obtain ⟨c, t, hct, hws, _, _⟩ := jvRender_head v
  rw [hct, List.cons_append, skipWsL_cons_false hws]

theorem jvParse_succ (f : Nat) (l : List Char) :
    jvParse (f + 1) l =
      (match skipWsL l with
       | 'n' :: 'u' :: 'l' :: 'l' :: r => some (.null, r)
       | 't' :: 'r' :: 'u' :: 'e' :: r => some (.bool true, r)
       | 'f' :: 'a' :: 'l' :: 's' :: 'e' :: r => some (.bool false, r)
       | '"' :: r =>
         match scanStrBody [] r with
         | some (s, r2) => some (.str s, r2)
         | none => none
       | '[' :: r =>
         match skipWsL r with
         | ']' :: r2 => some (.arr [], r2)
         | other =>
           match jvParseItems f other with
           | some (es, r2) => some (.arr es, r2)
           | none => none
       | '{' :: r =>
         match skipWsL r with
         | '}' :: r2 => some (.obj [], r2)
         | other =>
           match jvParseFields f other with
           | some (fs, r2) => some (.obj fs, r2)
           | none => none
       | c :: r =>
         if c = '-' || isDecDigit c then
           match scanIntNum (c :: r) with
           | some (n, r2) => some (.num n, r2)
           | none => none
         else none
       | [] => none) := rfl

theorem jvParseItems_succ (f : Nat) (l : List Char) :
    jvParseItems (f + 1) l =
      (match jvParse f l with
       | none => none
       | some (v, r) =>
         match skipWsL r with
         | ',' :: r2 =>
           match jvParseItems f (skipWsL r2) with
           | some (vs, r3) => some (v :: vs, r3)
           | none => none
         | ']' :: r2 => some ([v], r2)
         | _ => none) := rfl

theorem jvParseFields_succ (f : Nat) (l : List Char) :
    jvParseFields (f + 1) l =
      (match skipWsL l with
       | '"' :: r =>
         match scanStrBody [] r with
         | none => none
         | some (k, r1) =>
           match skipWsL r1 with
           | ':' :: r2 =>
             match jvParse f (skipWsL r2) with
             | none => none
             | some (v, r3) =>
               match skipWsL r3 with
               | ',' :: r4 =>
                 match jvParseFields f (skipWsL r4) with
                 | some (fs, r5) => some ((k, v) :: fs, r5)
                 | none => none
               | '}' :: r4 => some ([(k, v)], r4)
               | _ => none
           | _ => none
       | _ => none) := rfl

theorem jvParse_var_head (f : Nat) {c : Char} (t : List Char)
    (hws : isJsWs c = false) (hn : c ≠ 'n') (ht : c ≠ 't') (hf : c ≠ 'f') (hq : c ≠ '"')
    (hlb : c ≠ '[') (hlc : c ≠ '{') :
    jvParse (f + 1) (c :: t) =
      (if c = '-' || isDecDigit c then
        match scanIntNum (c :: t) with
        | some (n, r2) => some (.num n, r2)
        | none => none
      else none) := by
  rw [jvParse_succ, skipWsL_cons_false hws]
  split
  all_goals rename_i heq
  all_goals first
  | (injection heq with h1 h2
     first
     | exact absurd h1 hn
     | exact absurd h1 ht
     | exact absurd h1 hf
     | exact absurd h1 hq
     | exact absurd h1 hlb
     | exact absurd h1 hlc
     | (subst h1 h2; rfl))
  | exact absurd heq (by simp)

theorem jvParse_arr_cons (f : Nat) (e : JVal) (es : List JVal) (rest : List Char) :
    jvParse (f + 1) ('[' :: (jvRenderItems (e :: es) ++ ']' :: rest)) =
      (match jvParseItems f (jvRenderItems (e :: es) ++ ']' :: rest) with
       | some (vs, r2) => some (.arr vs, r2)
       | none => none) := by
  obtain ⟨c, t, hct, hws, hbr, _⟩ := jvRender_head e
  have hitems : jvRenderItems (e :: es) ++ ']' :: rest
      = c :: (t ++ jvRenderItemsTail es ++ ']' :: rest) := by
    simp [jvRenderItems, hct]
  rw [jvParse_succ, skipWsL_cons_false (by decide)]
  show (match skipWsL (jvRenderItems (e :: es) ++ ']' :: rest) with
        | ']' :: r2 => some (JVal.arr [], r2)
        | other =>
          match jvParseItems f other with
          | some (es2, r2) => some (JVal.arr es2, r2)
          | none => none) = _
  rw [show skipWsL (jvRenderItems (e :: es) ++ ']' :: rest)
      = jvRenderItems (e :: es) ++ ']' :: rest from by
    rw [hitems]; exact skipWsL_cons_false hws _]
  rw [hitems]
  split
  · rename_i heq
    exact absurd (List.cons.inj heq).1 hbr
  · rfl

theorem jvParse_obj_cons (f : Nat) (k : String) (v : JVal) (fs : List (String × JVal))
    (rest : List Char) :
    jvParse (f + 1) ('{' :: (jvRenderFields ((k, v) :: fs) ++ '}' :: rest)) =
      (match jvParseFields f (jvRenderFields ((k, v) :: fs) ++ '}' :: rest) with
       | some (fs2, r2) => some (.obj fs2, r2)
       | none => none) := by
  have hfields : jvRenderFields ((k, v) :: fs) ++ '}' :: rest
      = '"' :: (escBody k ++ '"' :: (':' :: (jvRender v ++ jvRenderFieldsTail fs ++ '}' :: rest))) := by
    simp [jvRenderFields, renderStrL]
  rw [jvParse_succ, skipWsL_cons_false (by decide)]
  show (match skipWsL (jvRenderFields ((k, v) :: fs) ++ '}' :: rest) with
        | '}' :: r2 => some (JVal.obj [], r2)
        | other =>
          match jvParseFields f other with
          | some (fs2, r2) => some (JVal.obj fs2, r2)
          | none => none) = _
  rw [show skipWsL (jvRenderFields ((k, v) :: fs) ++ '}' :: rest)
      = jvRenderFields ((k, v) :: fs) ++ '}' :: rest from by
    rw [hfields]; exact skipWsL_cons_false (by decide) _]
  rw [hfields]
  split
  · rename_i heq
    exact absurd (List.cons.inj heq).1 (by decide)
  · rfl

theorem skipWs_quote (t : List Char) : skipWsL ('"' :: t) = '"' :: t :=
  skipWsL_cons_false (by decide) t

theorem skipWs_colon (t : List Char) : skipWsL (':' :: t) = ':' :: t :=
  skipWsL_cons_false (by decide) t

theorem skipWs_comma (t : List Char) : skipWsL (',' :: t) = ',' :: t :=
  skipWsL_cons_false (by decide) t

theorem skipWs_rbrack (t : List Char) : skipWsL (']' :: t) = ']' :: t :=
  skipWsL_cons_false (by decide) t

theorem skipWs_rbrace (t : List Char) : skipWsL ('}' :: t) = '}' :: t :=
  skipWsL_cons_false (by decide) t

theorem skipWs_items (x : JVal) (xs : List JVal) (r : List Char) :
    skipWsL (jvRenderItems (x :: xs) ++ r) = jvRenderItems (x :: xs) ++ r := by
  obtain ⟨c, t, hct, hws, _, _⟩ := jvRender_head x
  rw [show jvRenderItems (x :: xs) ++ r = c :: (t ++ jvRenderItemsTail xs ++ r) from by
    simp [jvRenderItems, hct], skipWsL_cons_false hws]

theorem jvParse_num (f : Nat) (n : Int) (rest : List Char)
    (hrest : noDigitHead rest = true) :
    jvParse (f + 1) (intChars n ++ rest) = some (.num n, rest) := by
  have hsc := scanIntNum_intChars n rest hrest
  by_cases hneg : n < 0
  · have harg : intChars n ++ rest = '-' :: (natChars n.natAbs ++ rest) := by
      simp [intChars, hneg]
    rw [harg, jvParse_var_head f _ (by decide) (by decide) (by decide) (by decide) (by decide)
        (by decide) (by decide), if_pos (by decide), ← harg, hsc]
  · obtain ⟨c, t, hct, hc⟩ := natChars_head n.natAbs
    obtain ⟨hm, hws, _, _, _, hn2, ht2, hf2, hq2, hlb2, hlc2⟩ := digit_facts hc
    have harg : intChars n ++ rest = c :: (t ++ rest) := by
      simp [intChars, hneg, hct]
    rw [harg, jvParse_var_head f _ hws hn2 ht2 hf2 hq2 hlb2 hlc2,
        if_pos (by simp [hc]), ← harg, hsc]

mutual

theorem rtVal : ∀ (v : JVal) (f : Nat) (rest : List Char),
    (jvRender v).length < f → noDigitHead rest = true →
    jvParse f (jvRender v ++ rest) = some (v, rest)
  | .null, f, rest, hf, _ => by
    cases f with
    | zero => simp [jvRender] at hf
    | succ f1 =>
      rw [show jvRender .null ++ rest = 'n' :: 'u' :: 'l' :: 'l' :: rest from rfl,
        jvParse_succ, skipWsL_cons_false (by decide)]
      rfl
  | .bool true, f, rest, hf, _ => by
    cases f with
    | zero => simp [jvRender] at hf
    | succ f1 =>
      rw [show jvRender (.bool true) ++ rest = 't' :: 'r' :: 'u' :: 'e' :: rest from rfl,
        jvParse_succ, skipWsL_cons_false (by decide)]
      rfl
  | .bool false, f, rest, hf, _ => by
    cases f with
    | zero => simp [jvRender] at hf
    | succ f1 =>
      rw [show jvRender (.bool false) ++ rest = 'f' :: 'a' :: 'l' :: 's' :: 'e' :: rest from rfl,
        jvParse_succ, skipWsL_cons_false (by decide)]
      rfl
  | .num n, f, rest, hf, hrest => by
    cases f with
    | zero => exact absurd hf (Nat.not_lt_zero _)
    | succ f1 =>
      exact jvParse_num f1 n rest hrest
  | .str s, f, rest, hf, _ => by
    cases f with
    | zero => exact absurd hf (Nat.not_lt_zero _)
    | succ f1 =>
      have harg : jvRender (.str s) ++ rest = '"' :: (escBody s ++ '"' :: rest) := by
        simp [jvRender, renderStrL]
      rw [harg, jvParse_succ]
      simp only [skipWs_quote, scanStrBody_render]
  | .arr [], f, rest, hf, _ => by
    cases f with
    | zero => simp [jvRender] at hf
    | succ f1 =>
      rw [show jvRender (.arr []) ++ rest = '[' :: (']' :: rest) from by
          simp [jvRender, jvRenderItems], jvParse_succ, skipWsL_cons_false (by decide)]
      simp only [skipWs_rbrack]
  | .arr (e :: es), f, rest, hf, _ => by
    cases f with
    | zero => exact absurd hf (Nat.not_lt_zero _)
    | succ f1 =>
      have hlen : (jvRenderItems (e :: es)).length + 1 < f1 := by
        simp only [jvRender, List.length_cons, List.length_append, List.length_singleton] at hf
        omega
      have key := rtItems e es f1 rest hlen
      rw [show jvRender (.arr (e :: es)) ++ rest
          = '[' :: (jvRenderItems (e :: es) ++ ']' :: rest) from by simp [jvRender],
        jvParse_arr_cons, key]
  | .obj [], f, rest, hf, _ => by
    cases f with
    | zero => simp [jvRender] at hf
    | succ f1 =>
      rw [show jvRender (.obj []) ++ rest = '{' :: ('}' :: rest) from by
          simp [jvRender, jvRenderFields], jvParse_succ, skipWsL_cons_false (by decide)]
      simp only [skipWs_rbrace]
  | .obj ((k, v) :: fs), f, rest, hf, _ => by
    cases f with
    | zero => exact absurd hf (Nat.not_lt_zero _)
    | succ f1 =>
      have hlen : (jvRenderFields ((k, v) :: fs)).length + 1 < f1 := by
        simp only [jvRender, List.length_cons, List.length_append, List.length_singleton] at hf
        omega
      have key := rtFields k v fs f1 rest hlen
      rw [show jvRender (.obj ((k, v) :: fs)) ++ rest
          = '{' :: (jvRenderFields ((k, v) :: fs) ++ '}' :: rest) from by simp [jvRender],
        jvParse_obj_cons, key]
termination_by v _ _ _ _ => sizeOf v

theorem rtItems : ∀ (e : JVal) (es : List JVal) (f : Nat) (rest : List Char),
    (jvRenderItems (e :: es)).length + 1 < f →
    jvParseItems f (jvRenderItems (e :: es) ++ ']' :: rest) = some (e :: es, rest)
  | e, [], f, rest, hf => by
    cases f with
    | zero => omega
    | succ f1 =>
      have hlen : (jvRender e).length < f1 := by
        simp only [jvRenderItems, jvRenderItemsTail, List.append_nil, List.length_append] at hf
        omega
      have hv := rtVal e f1 (']' :: rest) hlen rfl
      rw [show jvRenderItems [e] ++ ']' :: rest = jvRender e ++ ']' :: rest from by
          simp [jvRenderItems, jvRenderItemsTail], jvParseItems_succ, hv]
      simp only [skipWs_rbrack]
  | e, x :: xs, f, rest, hf => by
    cases f with
    | zero => omega
    | succ f1 =>
      have hf2 : (jvRender e).length + (jvRenderItems (x :: xs)).length + 2 < f1 + 1 := by
        simp only [jvRenderItems, jvRenderItemsTail, List.length_append, List.length_cons] at hf ⊢
        omega
      have hv := rtVal e f1 (',' :: (jvRenderItems (x :: xs) ++ ']' :: rest))
        (by omega) rfl
      have key := rtItems x xs f1 rest (by omega)
      have harg : jvRenderItems (e :: x :: xs) ++ ']' :: rest
          = jvRender e ++ (',' :: (jvRenderItems (x :: xs) ++ ']' :: rest)) := by
        simp [jvRenderItems, jvRenderItemsTail]
      rw [jvParseItems_succ, harg, hv]
      simp only [skipWs_comma, skipWs_items, key]
termination_by e es _ _ _ => sizeOf e + sizeOf es

theorem rtFields : ∀ (k : String) (v : JVal) (fs : List (String × JVal)) (f : Nat)
    (rest : List Char),
    (jvRenderFields ((k, v) :: fs)).length + 1 < f →
    jvParseFields f (jvRenderFields ((k, v) :: fs) ++ '}' :: rest) = some ((k, v) :: fs, rest)
  | k, v, [], f, rest, hf => by
    cases f with
    | zero => omega
    | succ f1 =>
      have hlen : (jvRender v).length < f1 := by
        simp only [jvRenderFields, jvRenderFieldsTail, renderStrL, List.append_nil,
          List.length_append, List.length_cons] at hf
        omega
      have hv := rtVal v f1 ('}' :: rest) hlen rfl
      have harg : jvRenderFields [(k, v)] ++ '}' :: rest
          = '"' :: (escBody k ++ '"' :: (':' :: (jvRender v ++ '}' :: rest))) := by
        simp [jvRenderFields, jvRenderFieldsTail, renderStrL]
      rw [jvParseFields_succ, harg]
      simp only [skipWs_quote, scanStrBody_render, skipWs_colon, skipWs_jvRender, hv,
        skipWs_rbrace]
  | k, v, (k2, v2) :: fs2, f, rest, hf => by
    cases f with
    | zero => omega
    | succ f1 =>
      have hf2 : (jvRender v).length + (jvRenderFields ((k2, v2) :: fs2)).length + 2 < f1 + 1 := by
        simp only [jvRenderFields, jvRenderFieldsTail, renderStrL, List.length_append,
          List.length_cons] at hf ⊢
        omega
      have hv := rtVal v f1 (',' :: (jvRenderFields ((k2, v2) :: fs2) ++ '}' :: rest))
        (by omega) rfl
      have key := rtFields k2 v2 fs2 f1 rest (by omega)
      have harg : jvRenderFields ((k, v) :: (k2, v2) :: fs2) ++ '}' :: rest
          = '"' :: (escBody k ++ '"' :: (':' :: (jvRender v ++
              (',' :: (jvRenderFields ((k2, v2) :: fs2) ++ '}' :: rest))))) := by
        simp [jvRenderFields, jvRenderFieldsTail, renderStrL]
      have hfieldhead : skipWsL (jvRenderFields ((k2, v2) :: fs2) ++ '}' :: rest)
          = jvRenderFields ((k2, v2) :: fs2) ++ '}' :: rest := by
        rw [show jvRenderFields ((k2, v2) :: fs2) ++ '}' :: rest
            = '"' :: (escBody k2 ++ '"' :: (':' :: (jvRender v2 ++ jvRenderFieldsTail fs2
                ++ '}' :: rest))) from by simp [jvRenderFields, renderStrL],
          skipWs_quote]
      rw [jvParseFields_succ, harg]
      simp only [skipWs_quote, scanStrBody_render, skipWs_colon, skipWs_jvRender, hv,
        skipWs_comma, hfieldhead, key]
termination_by k v fs _ _ _ => sizeOf v + sizeOf fs

end

/-- The parser inverts the renderer on every JSON value. -/
theorem parseJson_renderJson (v : JVal) : parseJson (renderJson v) = some v := by
  have h := rtVal v ((jvRender v).length + 1) [] (by omega) (by decide)
  rw [List.append_nil] at h
  show (match jvParse ((jvRender v).length + 1) (jvRender v) with
        | some (w, r) => if skipWsL r = [] then some w else none
        | none => none) = some v
  rw [h]
  simp [skipWsL]

theorem dropLit_eq (ps : List Char) : ∀ l r, dropLit ps l = some r → l = ps ++ r := by
  induction ps with
  | nil =>
    intro l r h
    simp only [dropLit, Option.some.injEq] at h
    simp [h]
  | cons p pt ih =>
    intro l r h
    match l with
    | [] => simp [dropLit] at h
    | c :: cs =>
      simp only [dropLit] at h
      split at h
      · rename_i hc
        subst hc
        simp [ih cs r h]
      · exact absurd h (by simp)

theorem matchDefectAt_decomp {l body rest : List Char}
    (h : matchDefectAt l = some (body, rest)) :
    ∃ ws1 ws2, l = patLead ++ ws1 ++ '"' :: body ++ '"' :: ws2 ++ patSteps ++ rest ∧
      (∀ c ∈ ws1, isJsWs c = true) ∧ (∀ c ∈ ws2, isJsWs c = true) := by
  unfold matchDefectAt at h
  split at h
  · exact absurd h (by simp)
  · rename_i l1 hlead
    split at h
    · rename_i l3 hl1
      split at h
      · rename_i l5 hl3
        split at h
        · rename_i l7 hsteps
          simp only [Option.some.injEq, Prod.mk.injEq] at h
          obtain ⟨hbody, hrest⟩ := h
          subst hbody hrest
          refine ⟨l1.takeWhile isJsWs, l5.takeWhile isJsWs, ?_, ?_, ?_⟩
          · have e1 : l = patLead ++ l1 := dropLit_eq _ _ _ hlead
            have e2 : l1 = l1.takeWhile isJsWs ++ ('"' :: l3) := by
              conv_lhs => rw [← List.takeWhile_append_dropWhile (p := isJsWs) (l := l1)]
              rw [hl1]
            have e3 : l3 = l3.takeWhile notQuote ++ ('"' :: l5) := by
              conv_lhs => rw [← List.takeWhile_append_dropWhile (p := notQuote) (l := l3)]
              rw [hl3]
            have e4 : l5 = l5.takeWhile isJsWs ++ (patSteps ++ l7) := by
              conv_lhs => rw [← List.takeWhile_append_dropWhile (p := isJsWs) (l := l5)]
              rw [dropLit_eq _ _ _ hsteps]
            rw [e4] at e3
            rw [e3] at e2
            rw [e2] at e1
            rw [e1]
            simp
          · intro c hc
            exact List.mem_takeWhile_imp hc
          · intro c hc
            exact List.mem_takeWhile_imp hc
        · exact absurd h (by simp)
      · exact absurd h (by simp)
    · exact absurd h (by simp)

theorem scan3_append (a : List Char) : ∀ (x y : Char) (b : List Char),
    scan3 x y (a ++ b) = (scan3 x y a && scan3 (st2 x y a).1 (st2 x y a).2 b) := by
  induction a with
  | nil => intro x y b; simp [scan3, st2]
  | cons z t ih =>
    intro x y b
    simp only [List.cons_append, scan3, st2, List.append_eq, ih, Bool.and_assoc]

theorem st2_append (a : List Char) : ∀ (x y : Char) (b : List Char),
    st2 x y (a ++ b) = st2 (st2 x y a).1 (st2 x y a).2 b := by
  induction a with
  | nil => intro x y b; simp [st2]
  | cons z t ih => intro x y b; simp only [List.cons_append, st2, List.append_eq, ih]

theorem scan3_triple {x y : Char} {l : List Char} (hs : scan3 x y l = true)
    (a b : List Char) (c1 : Char) (he : l = a ++ c1 :: '"' :: 's' :: b) :
    isJsWs c1 = false ∧ c1 ≠ '"' := by
  subst he
  rw [scan3_append] at hs
  simp only [Bool.and_eq_true] at hs
  have h2 := hs.2
  simp only [scan3, Bool.and_eq_true, Bool.not_eq_true'] at h2
  have hbad := h2.2.2.1
  simp only [badStep, beq_self_eq_true, Bool.and_true, Bool.or_eq_false_iff,
    beq_eq_false_iff_ne] at hbad
  exact hbad

theorem scan_no_s : ∀ (l : List Char) (x y : Char), (∀ c ∈ l, c ≠ 's') →
    scan3 x y l = true
  | [], _, _, _ => rfl
  | z :: t, x, y, h => by
    have hz : (z == 's') = false := by
      simpa using h z (by simp)
    simp only [scan3, badStep, hz, Bool.and_false, Bool.not_false, Bool.true_and]
    exact scan_no_s t y z (fun c hc => h c (by simp [hc]))

theorem hexChar_facts (d : Nat) : hexChar d ≠ 's' ∧ hexChar d ≠ '"' := by
  unfold hexChar
  split <;> exact ⟨by decide, by decide⟩

theorem digit_ne_s {c : Char} (h : isDecDigit c = true) : c ≠ 's' := by
  have h1 : '0' ≤ c ∧ c ≤ '9' := by simpa [isDecDigit] using h
  have hlo : 48 ≤ c.toNat := h1.1
  have hhi : c.toNat ≤ 57 := h1.2
  intro he
  subst he
  revert hlo hhi
  decide

theorem intChars_no_s (n : Int) : ∀ c ∈ intChars n, c ≠ 's' := by
  intro c hc
  simp only [intChars, List.mem_append] at hc
  rcases hc with hm | hd
  · split at hm
    · simp only [List.mem_singleton] at hm
      subst hm
      decide
    · simp at hm
  · exact digit_ne_s (natChars_digits n.natAbs c hd)

theorem scanEsc (c p q : Char) (hinv : stInv p q) :
    scan3 p q (escCh c) = true ∧
      stInv (st2 p q (escCh c)).1 (st2 p q (escCh c)).2 := by
  rw [escCh.eq_def]
  split
  · refine ⟨by simp [scan3, badStep], ?_⟩
    simp only [st2]
    intro h
    exact ⟨by decide, by decide⟩
  · refine ⟨by simp [scan3, badStep], ?_⟩
    simp only [st2]
    intro h
    exact absurd h (by decide)
  · refine ⟨by simp [scan3, badStep], ?_⟩
    simp only [st2]
    intro h
    exact absurd h (by decide)
  · refine ⟨by simp [scan3, badStep], ?_⟩
    simp only [st2]
    intro h
    exact absurd h (by decide)
  · refine ⟨by simp [scan3, badStep], ?_⟩
    simp only [st2]
    intro h
    exact absurd h (by decide)
  · refine ⟨by simp [scan3, badStep], ?_⟩
    simp only [st2]
    intro h
    exact absurd h (by decide)
  · refine ⟨by simp [scan3, badStep], ?_⟩
    simp only [st2]
    intro h
    exact absurd h (by decide)
  next h1 h2 h3 h4 h5 h6 h7 =>
    by_cases hlt : c.toNat < 0x20
    · rw [if_pos hlt]
      constructor
      · have hs1 : (hexChar (c.toNat / 16) == 's') = false := by
          simpa using (hexChar_facts (c.toNat / 16)).1
        have hs2 : (hexChar (c.toNat % 16) == 's') = false := by
          simpa using (hexChar_facts (c.toNat % 16)).1
        simp [scan3, badStep, hs1, hs2]
      · simp only [st2]
        intro h
        exact absurd h (hexChar_facts (c.toNat % 16)).2
    · rw [if_neg hlt]
      constructor
      · by_cases hq : q = '"'
        · obtain ⟨hp1, hp2⟩ := hinv hq
          have hp2' : (p == '"') = false := by simpa using hp2
          simp [scan3, badStep, hp1, hp2']
        · have hq' : (q == '"') = false := by simpa using hq
          simp [scan3, badStep, hq']
      · simp only [st2]
        intro h
        exact absurd h h1

theorem scanBody : ∀ (l : List Char) (p q : Char), stInv p q →
    scan3 p q (escBodyL l) = true ∧
      stInv (st2 p q (escBodyL l)).1 (st2 p q (escBodyL l)).2
  | [], p, q, hinv => ⟨rfl, hinv⟩
  | c :: t, p, q, hinv => by
    have hc := scanEsc c p q hinv
    have harg : escBodyL (c :: t) = escCh c ++ escBodyL t := by simp [escBodyL]
    have ht := scanBody t (st2 p q (escCh c)).1 (st2 p q (escCh c)).2 hc.2
    rw [harg, scan3_append, st2_append]
    exact ⟨by simp [hc.1, ht.1], ht.2⟩

theorem scanRenderStr (s : String) (x y : Char) (hy1 : isJsWs y = false) (hy2 : y ≠ '"') :
    scan3 x y (renderStrL s) = true := by
  have hb := scanBody s.data y '"' (fun _ => ⟨hy1, hy2⟩)
  rw [show renderStrL s = '"' :: (escBodyL s.data ++ ['"']) from rfl]
  rw [show scan3 x y ('"' :: (escBodyL s.data ++ ['"']))
      = (!badStep x y '"' && scan3 y '"' (escBodyL s.data ++ ['"'])) from rfl]
  rw [scan3_append]
  have hend : scan3 (st2 y '"' (escBodyL s.data)).1 (st2 y '"' (escBodyL s.data)).2 ['"']
      = true := by
    simp [scan3, badStep]
  simp [badStep, hb.1, hend]

mutual

theorem scanVal : ∀ (v : JVal) (x y : Char), isJsWs y = false → y ≠ '"' →
    scan3 x y (jvRender v) = true
  | .null, x, y, _, _ => by
    exact scan_no_s _ x y (by decide)
  | .bool true, x, y, _, _ => by
    exact scan_no_s _ x y (by decide)
  | .bool false, x, y, _, _ => by
    simp [jvRender, scan3, badStep]
  | .num n, x, y, _, _ => by
    exact scan_no_s _ x y (intChars_no_s n)
  | .str s, x, y, hy1, hy2 => by
    exact scanRenderStr s x y hy1 hy2
  | .arr [], x, y, _, _ => by
    exact scan_no_s _ x y (by decide)
  | .arr (e :: es), x, y, _, _ => by
    rw [show jvRender (.arr (e :: es)) = '[' :: (jvRenderItems (e :: es) ++ [']']) from by
      simp [jvRender]]
    rw [show scan3 x y ('[' :: (jvRenderItems (e :: es) ++ [']']))
        = (!badStep x y '[' && scan3 y '[' (jvRenderItems (e :: es) ++ [']'])) from rfl]
    rw [scan3_append]
    have hi := scanItems e es y '[' (by decide) (by decide)
    have hend : scan3 (st2 y '[' (jvRenderItems (e :: es))).1
        (st2 y '[' (jvRenderItems (e :: es))).2 [']'] = true := by
      simp [scan3, badStep]
    simp [badStep, hi, hend]
  | .obj [], x, y, _, _ => by
    exact scan_no_s _ x y (by decide)
  | .obj ((k, v) :: fs), x, y, _, _ => by
    rw [show jvRender (.obj ((k, v) :: fs)) = '{' :: (jvRenderFields ((k, v) :: fs) ++ ['}'])
      from by simp [jvRender]]
    rw [show scan3 x y ('{' :: (jvRenderFields ((k, v) :: fs) ++ ['}']))
        = (!badStep x y '{' && scan3 y '{' (jvRenderFields ((k, v) :: fs) ++ ['}'])) from rfl]
    rw [scan3_append]
    have hi := scanFields k v fs y '{' (by decide) (by decide)
    have hend : scan3 (st2 y '{' (jvRenderFields ((k, v) :: fs))).1
        (st2 y '{' (jvRenderFields ((k, v) :: fs))).2 ['}'] = true := by
      simp [scan3, badStep]
    simp [badStep, hi, hend]
termination_by v _ _ _ _ => sizeOf v

theorem scanItems : ∀ (e : JVal) (es : List JVal) (x y : Char),
    isJsWs y = false → y ≠ '"' → scan3 x y (jvRenderItems (e :: es)) = true
  | e, [], x, y, hy1, hy2 => by
    rw [show jvRenderItems [e] = jvRender e from by simp [jvRenderItems, jvRenderItemsTail]]
    exact scanVal e x y hy1 hy2
  | e, x2 :: xs, x, y, hy1, hy2 => by
    rw [show jvRenderItems (e :: x2 :: xs)
        = jvRender e ++ ',' :: jvRenderItems (x2 :: xs) from by
      simp [jvRenderItems, jvRenderItemsTail]]
    rw [scan3_append]
    have hv := scanVal e x y hy1 hy2
    have htail : scan3 (st2 x y (jvRender e)).1 (st2 x y (jvRender e)).2
        (',' :: jvRenderItems (x2 :: xs)) = true := by
      rw [show scan3 (st2 x y (jvRender e)).1 (st2 x y (jvRender e)).2
            (',' :: jvRenderItems (x2 :: xs))
          = (!badStep (st2 x y (jvRender e)).1 (st2 x y (jvRender e)).2 ',' &&
             scan3 (st2 x y (jvRender e)).2 ',' (jvRenderItems (x2 :: xs))) from rfl]
      have hi := scanItems x2 xs (st2 x y (jvRender e)).2 ',' (by decide) (by decide)
      simp [badStep, hi]
    simp [hv, htail]
termination_by e es _ _ _ _ => sizeOf e + sizeOf es + 1

theorem scanFields : ∀ (k : String) (v : JVal) (fs : List (String × JVal)) (x y : Char),
    isJsWs y = false → y ≠ '"' → scan3 x y (jvRenderFields ((k, v) :: fs)) = true
  | k, v, fs, x, y, hy1, hy2 => by
    rw [show jvRenderFields ((k, v) :: fs)
        = renderStrL k ++ ':' :: (jvRender v ++ jvRenderFieldsTail fs) from rfl]
    rw [scan3_append]
    have hk := scanRenderStr k x y hy1 hy2
    have hrest : scan3 (st2 x y (renderStrL k)).1 (st2 x y (renderStrL k)).2
        (':' :: (jvRender v ++ jvRenderFieldsTail fs)) = true := by
      rw [show scan3 (st2 x y (renderStrL k)).1 (st2 x y (renderStrL k)).2
            (':' :: (jvRender v ++ jvRenderFieldsTail fs))
          = (!badStep (st2 x y (renderStrL k)).1 (st2 x y (renderStrL k)).2 ':' &&
             scan3 (st2 x y (renderStrL k)).2 ':' (jvRender v ++ jvRenderFieldsTail fs))
          from rfl]
      rw [scan3_append]
      have hv := scanVal v (st2 x y (renderStrL k)).2 ':' (by decide) (by decide)
      have htail : scan3 (st2 (st2 x y (renderStrL k)).2 ':' (jvRender v)).1
          (st2 (st2 x y (renderStrL k)).2 ':' (jvRender v)).2
          (jvRenderFieldsTail fs) = true := by
        match fs with
        | [] => rfl
        | (k2, v2) :: fs2 =>
          rw [show jvRenderFieldsTail ((k2, v2) :: fs2)
              = ',' :: jvRenderFields ((k2, v2) :: fs2) from rfl]
          rw [show scan3 (st2 (st2 x y (renderStrL k)).2 ':' (jvRender v)).1
                (st2 (st2 x y (renderStrL k)).2 ':' (jvRender v)).2
                (',' :: jvRenderFields ((k2, v2) :: fs2))
              = (!badStep (st2 (st2 x y (renderStrL k)).2 ':' (jvRender v)).1
                   (st2 (st2 x y (renderStrL k)).2 ':' (jvRender v)).2 ',' &&
                 scan3 (st2 (st2 x y (renderStrL k)).2 ':' (jvRender v)).2 ','
                   (jvRenderFields ((k2, v2) :: fs2))) from rfl]
          have hrec := scanFields k2 v2 fs2
            (st2 (st2 x y (renderStrL k)).2 ':' (jvRender v)).2 ',' (by decide) (by decide)
          simp [badStep, hrec]
      simp [badStep, hv, htail]
    simp [hk, hrest]
termination_by k v fs _ _ _ _ => sizeOf v + sizeOf fs + 1

end

theorem patSteps_expand : patSteps = '"' :: 's' :: 't' :: 'e' :: 'p' :: 's' :: '"' :: [] := rfl

theorem replaceDefectGo_id : ∀ (fuel : Nat) (l : List Char) (x y : Char),
    l.length ≤ fuel → scan3 x y l = true → replaceDefectGo fuel l = l := by
  intro fuel
  induction fuel with
  | zero =>
    intro l x y hlen _
    rfl
  | succ f ih =>
    intro l x y hlen hs
    match l with
    | [] => rfl
    | c :: cs =>
      have htail : scan3 y c cs = true := by
        simp only [scan3, Bool.and_eq_true] at hs
        exact hs.2
      have hnone : matchDefectAt (c :: cs) = none := by
        cases hm : matchDefectAt (c :: cs) with
        | none => rfl
        | some br =>
          exfalso
          obtain ⟨body, rest⟩ := br
          obtain ⟨ws1, ws2, he, hw1, hw2⟩ := matchDefectAt_decomp hm
          cases hws2 : ws2 with
          | nil =>
            rw [hws2] at he
            have ht := scan3_triple hs (patLead ++ ws1 ++ '"' :: body)
              ('t' :: 'e' :: 'p' :: 's' :: '"' :: rest) '"' (by
                rw [he, patSteps_expand]
                simp)
            exact absurd rfl ht.2
          | cons w ws' =>
            have hne : ws2 ≠ [] := by rw [hws2]; simp
            obtain ⟨ys, yl, hysyl⟩ : ∃ ys yl, ws2 = ys ++ [yl] :=
              ⟨ws2.dropLast, ws2.getLast hne, (List.dropLast_append_getLast hne).symm⟩
            have hyl : isJsWs yl = true := hw2 yl (by rw [hysyl]; simp)
            have ht := scan3_triple hs (patLead ++ ws1 ++ '"' :: body ++ '"' :: ys)
              ('t' :: 'e' :: 'p' :: 's' :: '"' :: rest) yl (by
                rw [he, hysyl, patSteps_expand]
                simp)
            rw [ht.1] at hyl
            exact Bool.false_ne_true hyl
      rw [show replaceDefectGo (f + 1) (c :: cs)
          = (match matchDefectAt (c :: cs) with
             | some (body, rest) => defectFix body ++ replaceDefectGo f rest
             | none => c :: replaceDefectGo f cs) from rfl, hnone]
      rw [ih cs y c (by simp at hlen; omega) htail]

theorem replaceDefect_id (l : List Char) (x y : Char) (hs : scan3 x y l = true) :
    replaceDefectL l = l :=
  replaceDefectGo_id l.length l x y (Nat.le_refl _) hs

/-- The targeted repair is the identity on canonically rendered JSON. -/
theorem replaceDefect_jvRender (v : JVal) : replaceDefectL (jvRender v) = jvRender v :=
  replaceDefect_id _ 'A' 'A' (scanVal v 'A' 'A' (by decide) (by decide))

theorem skipWsL_cons_true {c : Char} (h : isJsWs c = true) (t : List Char) :
    skipWsL (c :: t) = skipWsL t := by
  simp [skipWsL, List.dropWhile_cons, h]

theorem jsTrimL_wrap (a b : Char) (mid : List Char) (ha : isJsWs a = false)
    (hb : isJsWs b = false) : jsTrimL (a :: (mid ++ [b])) = a :: (mid ++ [b]) := by
  unfold jsTrimL
  have h1 : (a :: (mid ++ [b])).reverse = b :: (mid.reverse ++ [a]) := by simp
  rw [h1, skipWsL_cons_false hb]
  have h2 : (b :: (mid.reverse ++ [a])).reverse = a :: (mid ++ [b]) := by simp
  rw [h2, skipWsL_cons_false ha]

theorem jsTrimL_fenceWrap (tag l : List Char) :
    jsTrimL (fenceWrapL tag l) = fenceWrapL tag l := by
  have h : fenceWrapL tag l
      = '`' :: (('`' :: '`' :: (tag ++ '\n' :: (l ++ ['\n', '`', '`']))) ++ ['`']) := by
    simp [fenceWrapL]
  rw [h, jsTrimL_wrap _ _ _ (by decide) (by decide)]

theorem exposeTwo (t : List Char) : ∃ x1 x2 X,
    t ++ ['\n', '`', '`', '`'] = x1 :: x2 :: X := by
  cases t with
  | nil => exact ⟨'\n', '`', ['`', '`'], rfl⟩
  | cons u t2 =>
    cases t2 with
    | nil => exact ⟨u, '\n', ['`', '`', '`'], rfl⟩
    | cons u2 t3 => exact ⟨u, u2, t3 ++ ['\n', '`', '`', '`'], by simp⟩

theorem stripOpenFence_wrap (tag : List Char) (htag : fenceTagOk tag) (c : Char)
    (t : List Char) (hws : isJsWs c = false) :
    stripOpenFence (fenceWrapL tag (c :: t)) = (c :: t) ++ ['\n', '`', '`', '`'] := by
  rcases htag with rfl | ⟨a, b, c2, d, rfl, ha, hb, hc2, hd⟩
  · obtain ⟨x1, x2, X, hX⟩ := exposeTwo t
    have harg : fenceWrapL [] (c :: t)
        = '`' :: '`' :: '`' :: ('\n' :: c :: (t ++ ['\n', '`', '`', '`'])) := by
      simp [fenceWrapL]
    rw [harg, hX]
    rw [show stripOpenFence ('`' :: '`' :: '`' :: ('\n' :: c :: x1 :: x2 :: X))
        = (if asciiLower '\n' == 'j' && asciiLower c == 's' && asciiLower x1 == 'o' &&
              asciiLower x2 == 'n' then skipWsL X
           else skipWsL ('\n' :: c :: x1 :: x2 :: X)) from rfl]
    rw [if_neg (by simp [show (asciiLower '\n' == 'j') = false from by decide])]
    rw [skipWsL_cons_true (by decide), skipWsL_cons_false hws]
    simp [hX]
  · have harg : fenceWrapL [a, b, c2, d] (c :: t)
        = '`' :: '`' :: '`' :: (a :: b :: c2 :: d :: ('\n' :: c :: (t ++ ['\n', '`', '`', '`'])))
        := by
      simp [fenceWrapL]
    rw [harg]
    rw [show stripOpenFence ('`' :: '`' :: '`' ::
          (a :: b :: c2 :: d :: ('\n' :: c :: (t ++ ['\n', '`', '`', '`']))))
        = (if asciiLower a == 'j' && asciiLower b == 's' && asciiLower c2 == 'o' &&
              asciiLower d == 'n' then skipWsL ('\n' :: c :: (t ++ ['\n', '`', '`', '`']))
           else skipWsL (a :: b :: c2 :: d :: ('\n' :: c :: (t ++ ['\n', '`', '`', '`']))))
        from rfl]
    rw [if_pos (by simp [ha, hb, hc2, hd])]
    rw [skipWsL_cons_true (by decide), skipWsL_cons_false hws]
    simp

theorem stripCloseFence_wrap (I : List Char) (z : Char) (hz : isJsWs z = false) :
    stripCloseFence ((I ++ [z]) ++ ['\n', '`', '`', '`']) = I ++ [z] := by
  have hrev : ((I ++ [z]) ++ ['\n', '`', '`', '`']).reverse
      = '`' :: '`' :: '`' :: ('\n' :: (z :: I.reverse)) := by
    simp
  unfold stripCloseFence
  rw [hrev]
  rw [show (match ('`' :: '`' :: '`' :: ('\n' :: (z :: I.reverse))) with
      | '`' :: '`' :: '`' :: r => (r.dropWhile isJsWs).reverse
      | _ => (I ++ [z]) ++ ['\n', '`', '`', '`'])
      = (('\n' :: (z :: I.reverse)).dropWhile isJsWs).reverse from rfl]
  rw [show ('\n' :: (z :: I.reverse)).dropWhile isJsWs = z :: I.reverse from by
    rw [List.dropWhile_cons, if_pos (by decide : isJsWs '\n' = true),
      List.dropWhile_cons, if_neg (by simp [hz])]]
  simp

theorem startsFence_fenceWrap (tag l : List Char) : startsFence (fenceWrapL tag l) = true := rfl

/-- Cleaning a fence-wrapped canonical array rendering returns exactly the
rendering: trim is the identity, the fences are stripped, and the targeted
repair finds nothing to rewrite. -/
theorem cleanLLM_fenceWrap (tag : List Char) (htag : fenceTagOk tag) (vs : List JVal) :
    cleanLLMJsonResponseL (fenceWrapL tag (jvRender (.arr vs))) = jvRender (.arr vs) := by
  have hR : jvRender (.arr vs) = '[' :: (jvRenderItems vs ++ [']']) := by
    simp [jvRender]
  simp only [cleanLLMJsonResponseL]
  rw [jsTrimL_fenceWrap, startsFence_fenceWrap, if_pos rfl]
  rw [show fenceWrapL tag (jvRender (.arr vs))
      = fenceWrapL tag ('[' :: (jvRenderItems vs ++ [']'])) from by rw [← hR]]
  rw [stripOpenFence_wrap tag htag '[' (jvRenderItems vs ++ [']']) (by decide)]
  rw [show ('[' :: (jvRenderItems vs ++ [']'])) ++ ['\n', '`', '`', '`']
      = (('[' :: jvRenderItems vs) ++ [']']) ++ ['\n', '`', '`', '`'] from by simp]
  rw [stripCloseFence_wrap ('[' :: jvRenderItems vs) ']' (by decide)]
  rw [show ('[' :: jvRenderItems vs) ++ [']'] = '[' :: (jvRenderItems vs ++ [']']) from by simp]
  rw [← hR]
  exact replaceDefect_jvRender (.arr vs)

/-! ### Identifier probing: the fuel bound is sufficient -/

theorem natOfDigits_zeros (k : Nat) (ds : List Char) :
    natOfDigits (List.replicate k '0' ++ ds) = natOfDigits ds := by
  induction k with
  | zero => simp
  | succ m ih =>
    rw [show List.replicate (m + 1) '0' ++ ds = '0' :: (List.replicate m '0' ++ ds) from by
      simp [List.replicate_succ]]
    simpa [natOfDigits, decVal] using ih

theorem natOfDigits_padStart3 (n : Nat) : natOfDigits (padStart3 (natChars n)) = n := by
  unfold padStart3
  split
  · rw [natOfDigits_zeros, natOfDigits_natChars]
  · rw [natOfDigits_natChars]

theorem tcId_inj {a b : Nat} (h : tcId a = tcId b) : a = b := by
  have hdata : "TC-".data ++ padStart3 (natChars a) = "TC-".data ++ padStart3 (natChars b) :=
    congrArg String.data h
  have hpad : padStart3 (natChars a) = padStart3 (natChars b) := by
    simpa using hdata
  have := congrArg natOfDigits hpad
  rwa [natOfDigits_padStart3, natOfDigits_padStart3] at this

theorem probeFree_spec (S : List String) : ∀ (fuel c : Nat),
    (∃ j, c ≤ j ∧ j < c + fuel ∧ tcId j ∉ S) →
    tcId (probeFree S fuel c) ∉ S ∧ c ≤ probeFree S fuel c ∧
      ∀ j, c ≤ j → j < probeFree S fuel c → tcId j ∈ S := by
  intro fuel
  induction fuel with
  | zero =>
    intro c h
    obtain ⟨j, h1, h2, _⟩ := h
    omega
  | succ f ih =>
    intro c h
    obtain ⟨j, h1, h2, h3⟩ := h
    by_cases hc : tcId c ∈ S
    · have hne : c ≠ j := fun he => h3 (he ▸ hc)
      obtain ⟨ih1, ih2, ih3⟩ := ih (c + 1) ⟨j, by omega, by omega, h3⟩
      rw [show probeFree S (f + 1) c
          = (if tcId c ∈ S then probeFree S f (c + 1) else c) from rfl, if_pos hc]
      refine ⟨ih1, by omega, ?_⟩
      intro j2 hj1 hj2
      by_cases hj : j2 = c
      · exact hj ▸ hc
      · exact ih3 j2 (by omega) hj2
    · rw [show probeFree S (f + 1) c
          = (if tcId c ∈ S then probeFree S f (c + 1) else c) from rfl, if_neg hc]
      exact ⟨hc, Nat.le_refl c, fun j2 hj1 hj2 => absurd (Nat.lt_of_le_of_lt hj1 hj2)
        (Nat.lt_irrefl _)⟩

theorem tcId_range_free (S : List String) (c : Nat) :
    ∃ j, c ≤ j ∧ j < c + (S.length + 1) ∧ tcId j ∉ S := by
  by_contra hcon
  push_neg at hcon
  have hsub : ∀ x ∈ (List.range (S.length + 1)).map (fun i => tcId (c + i)), x ∈ S := by
    intro x hx
    simp only [List.mem_map, List.mem_range] at hx
    obtain ⟨i, hi, rfl⟩ := hx
    exact hcon _ (by omega) (by omega)
  have hnodup : ((List.range (S.length + 1)).map (fun i => tcId (c + i))).Nodup := by
    refine List.Nodup.map ?_ (List.nodup_range _)
    intro i1 i2 he
    have := tcId_inj he
    omega
  have hlen : ((List.range (S.length + 1)).map (fun i => tcId (c + i))).length
      = S.length + 1 := by simp
  have h1 := List.toFinset_card_of_nodup hnodup
  have h2 : ((List.range (S.length + 1)).map (fun i => tcId (c + i))).toFinset ⊆ S.toFinset := by
    intro x hx
    rw [List.mem_toFinset] at hx ⊢
    exact hsub x hx
  have h3 := Finset.card_le_card h2
  have h4 := S.toFinset_card_le
  omega

theorem normalizeTestCase_fresh (tc : RawTestCase) (index : Nat) (S : List String) :
    (normalizeTestCase tc index (some S)).1.testId ∉ S ∧
    (normalizeTestCase tc index (some S)).2
      = some ((normalizeTestCase tc index (some S)).1.testId :: S) := by
  unfold normalizeTestCase
  simp only []
  by_cases h0 : jsOr tc.testId (tcId (index + 1)) ∈ S
  · rw [if_pos h0]
    obtain ⟨hf, -, -⟩ := probeFree_spec S (S.length + 1) (index + 1)
      (tcId_range_free S (index + 1))
    exact ⟨hf, trivial⟩
  · rw [if_neg h0]
    exact ⟨h0, trivial⟩

theorem normalizeTestCasesGo_fresh : ∀ (l : List RawTestCase) (base i : Nat)
    (ids : List String),
    ((normalizeTestCasesGo base ids i l).map (fun t => t.testId)).Nodup ∧
    ∀ t ∈ normalizeTestCasesGo base ids i l, t.testId ∉ ids := by
  intro l
  induction l with
  | nil =>
    intro base i ids
    exact ⟨List.nodup_nil, fun t ht => absurd ht (List.not_mem_nil t)⟩
  | cons tc rest ih =>
    intro base i ids
    obtain ⟨hfresh, hsnd⟩ := normalizeTestCase_fresh tc (base + i + 1) ids
    have hgo : normalizeTestCasesGo base ids i (tc :: rest)
        = (normalizeTestCase tc (base + i + 1) (some ids)).1 ::
          normalizeTestCasesGo base
            ((normalizeTestCase tc (base + i + 1) (some ids)).2.getD ids) (i + 1) rest := rfl
    rw [hgo, hsnd]
    simp only [Option.getD_some]
    obtain ⟨ihnodup, ihnotin⟩ := ih base (i + 1)
      ((normalizeTestCase tc (base + i + 1) (some ids)).1.testId :: ids)
    constructor
    · rw [List.map_cons, List.nodup_cons]
      refine ⟨?_, ihnodup⟩
      intro hmem
      rw [List.mem_map] at hmem
      obtain ⟨t, ht, hte⟩ := hmem
      exact ihnotin t ht (hte ▸ List.mem_cons_self ..)
    · intro t ht
      rcases List.mem_cons.mp ht with rfl | ht2
      · exact hfresh
      · intro hin
        exact ihnotin t ht2 (List.mem_cons_of_mem _ hin)

theorem jsOr_absent {o : Option String} (h : o = none ∨ o = some "") (d : String) :
    jsOr o d = d := by
  rcases h with rfl | rfl
  · rfl
  · rfl

/-- C9: estimateTokens computes the ceiling of length/4, maps the empty
string to 0, and is non-decreasing in the input length. -/
theorem c9_estimateTokens :
    (∀ s : String, estimateTokens s = (s.length + 3) / 4) ∧
    estimateTokens "" = 0 ∧
    ∀ s t : String, s.length ≤ t.length → estimateTokens s ≤ estimateTokens t := by
  have hceil : ∀ s : String, estimateTokens s = (s.length + 3) / 4 := by
    intro s
    unfold estimateTokens
    split
    · rename_i h
      subst h
      rfl
    · rfl
  refine ⟨hceil, rfl, ?_⟩
  intro s t h
  rw [hceil, hceil]
  exact Nat.div_le_div_right (by omega)

/-- C9 witness: monotonicity instantiated at two concrete strings. -/
theorem c9_estimateTokens_witness :
    estimateTokens ("abcde") ≤ estimateTokens ("abcdefgh") :=
  c9_estimateTokens.2.2 ("abcde") ("abcdefgh") (by decide)

/-- C5: the record normalizer is total, and absent fields receive the
documented defaults: the empty partial record maps to the fully defaulted
record, and each absent (or empty, hence falsy) field defaults independently
of the others. -/
theorem c5_normalizer_total :
    (∀ index : Nat, (normalizeTestCase {} index none).1
      = { testId := tcId (index + 1), title := "Test Case " ++ numStr (index + 1),
          description := "", preconditions := "", steps := [], expectedResult := "",
          priority := "Medium", type := "Functional" }) ∧
    (∀ (tc : RawTestCase) (index : Nat),
      ((tc.title = none ∨ tc.title = some "") →
        (normalizeTestCase tc index none).1.title = "Test Case " ++ numStr (index + 1)) ∧
      ((tc.description = none ∨ tc.description = some "") →
        (normalizeTestCase tc index none).1.description = "") ∧
      ((tc.preconditions = none ∨ tc.preconditions = some "") →
        (normalizeTestCase tc index none).1.preconditions = "") ∧
      (tc.steps = none → (normalizeTestCase tc index none).1.steps = []) ∧
      ((tc.expectedResult = none ∨ tc.expectedResult = some "") →
        (normalizeTestCase tc index none).1.expectedResult = "") ∧
      ((tc.priority = none ∨ tc.priority = some "") →
        (normalizeTestCase tc index none).1.priority = "Medium") ∧
      ((tc.type = none ∨ tc.type = some "") →
        (normalizeTestCase tc index none).1.type = "Functional")) := by
  constructor
  · intro index
    rfl
  · intro tc index
    refine ⟨?_, ?_, ?_, ?_, ?_, ?_, ?_⟩
    · intro h
      exact jsOr_absent h _
    · intro h
      exact jsOr_absent h _
    · intro h
      exact jsOr_absent h _
    · intro h
      simp only [normalizeTestCase, h]
    · intro h
      exact jsOr_absent h _
    · intro h
      exact jsOr_absent h _
    · intro h
      exact jsOr_absent h _

/-- C5 witness: all defaults at position 0 for the empty record, and the
steps default for a record with steps absent. -/
theorem c5_normalizer_total_witness :
    (normalizeTestCase {} 0 none).1
      = { testId := "TC-001", title := "Test Case 1", description := "", preconditions := "",
          steps := [], expectedResult := "", priority := "Medium", type := "Functional" } ∧
    (normalizeTestCase { title := some ("T") } 5 none).1.steps = [] := by
  constructor
  · rw [c5_normalizer_total.1 0]
    decide
  · exact (c5_normalizer_total.2 { title := some ("T") } 5).2.2.2.1 rfl

/-- C10: the refine route preserves a non-empty testId: the parsed object's
own testId wins when truthy, otherwise the input record's testId is used, and
normalization does not replace either with a generated TC identifier. -/
theorem c10_refine_testId :
    ∀ (parsed : RawTestCase) (input : TestCase), input.testId ≠ "" →
      ((parsed.testId = none ∨ parsed.testId = some "") →
        (refineNormalize parsed input).testId = input.testId) ∧
      (∀ s, parsed.testId = some s → s ≠ "" →
        (refineNormalize parsed input).testId = s) := by
  intro parsed input hne
  have key : (refineNormalize parsed input).testId
      = jsOr (some (jsOr parsed.testId input.testId)) (tcId 1) := rfl
  constructor
  · intro h
    rw [key, jsOr_absent h]
    simp [jsOr, hne]
  · intro s hs hsne
    rw [key, hs]
    simp [jsOr, hsne]

/-- C10 witness: an empty parsed record keeps the input record's testId. -/
theorem c10_refine_testId_witness :
    (refineNormalize {}
      { testId := "TC-009", title := "t", description := "", preconditions := "",
        steps := [], expectedResult := "", priority := "Medium",
        type := "Functional" }).testId = "TC-009" :=
  (c10_refine_testId {}
    { testId := "TC-009", title := "t", description := "", preconditions := "",
      steps := [], expectedResult := "", priority := "Medium", type := "Functional" }
    (by decide)).1 (Or.inl rfl)

/-- C3 counterexample: an ollama configuration with no fields at all is
accepted by createProvider; the factory performs no validation for ollama,
so the claimed "validates that required configuration is present for the
selected provider" does not hold of that provider. -/
theorem c3_counterexample :
    createProvider { provider := "ollama" } = .ok (.ollama none none) := rfl

/-- C3 (amended): field validation is per provider: openai and gemini require
a truthy apiKey, azure requires all four of apiKey, endpoint, deployment and
apiVersion, ollama accepts any configuration, and any other provider string
is rejected with the unsupported-provider error. -/
theorem c3_validation :
    ∀ config : ProviderConfig,
      (config.provider = "openai" →
        ((∃ p, createProvider config = .ok p) ↔ jsPresent config.apiKey = true)) ∧
      (config.provider = "azure" →
        ((∃ p, createProvider config = .ok p) ↔
          (jsPresent config.apiKey = true ∧ jsPresent config.endpoint = true ∧
            jsPresent config.deployment = true ∧ jsPresent config.apiVersion = true))) ∧
      (config.provider = "ollama" → ∃ p, createProvider config = .ok p) ∧
      (config.provider = "gemini" →
        ((∃ p, createProvider config = .ok p) ↔ jsPresent config.apiKey = true)) ∧
      (config.provider ∉ (["openai", "azure", "ollama", "gemini"] : List String) →
        createProvider config = .error ("Unsupported provider: " ++ config.provider)) := by
  intro config
  refine ⟨?_, ?_, ?_, ?_, ?_⟩
  · intro h
    cases hj : jsPresent config.apiKey <;> simp [createProvider, h, hj]
  · intro h
    cases ha : jsPresent config.apiKey <;> cases hb : jsPresent config.endpoint <;>
      cases hc : jsPresent config.deployment <;> cases hd : jsPresent config.apiVersion <;>
      simp [createProvider, h, ha, hb, hc, hd]
  · intro h
    simp [createProvider, h]
  · intro h
    cases hj : jsPresent config.apiKey <;> simp [createProvider, h, hj]
  · intro h
    simp only [List.mem_cons, List.not_mem_nil, or_false, not_or] at h
    obtain ⟨h1, h2, h3, h4⟩ := h
    simp [createProvider, h1, h2, h3, h4]

/-- C3 witness: a fully specified azure configuration is accepted; an unknown
provider string is rejected with the unsupported-provider message. -/
theorem c3_validation_witness :
    (∃ p, createProvider
        { provider := "azure", apiKey := some ("k"), endpoint := some ("e"),
          deployment := some ("d"), apiVersion := some ("v") } = .ok p) ∧
    createProvider { provider := "anthropic" }
      = .error ("Unsupported provider: anthropic") := by
  constructor
  · exact ((c3_validation
      { provider := "azure", apiKey := some ("k"), endpoint := some ("e"),
        deployment := some ("d"), apiVersion := some ("v") }).2.1 rfl).mpr (by decide)
  · exact (c3_validation { provider := "anthropic" }).2.2.2.2 (by decide)

/-- C8 counterexample: the batch parser checks only Array.isArray, so an
array of non-objects such as [1, 2] is accepted, contradicting the claim
that non-test-case shapes are rejected with an explanatory error. -/
theorem c8_counterexample :
    parseTestCasesFromLLM ("[1, 2]") = .ok [JVal.num 1, JVal.num 2] := rfl

/-- C8 (amended): after cleaning and a successful JSON.parse, the batch
parser accepts exactly arrays (with no per-element check) and otherwise
fails with the not-an-array message; the single parser accepts exactly
non-array objects, rejects arrays with the got-array message, and rejects
all other values with the not-an-object message. -/
theorem c8_parse_shapes :
    ∀ (s : String) (v : JVal), parseJson (cleanLLMJsonResponse s) = some v →
      ((∃ es, v = .arr es ∧ parseTestCasesFromLLM s = .ok es) ∨
        ((∀ es, v ≠ .arr es) ∧
          parseTestCasesFromLLM s
            = .error ("LLM response is not a valid array of test cases"))) ∧
      ((∃ fs, v = .obj fs ∧ parseTestCaseFromLLM s = .ok (.obj fs)) ∨
        ((∃ es, v = .arr es) ∧
          parseTestCaseFromLLM s
            = .error ("Expected single test case object, got array")) ∨
        ((∀ es, v ≠ .arr es) ∧ (∀ fs, v ≠ .obj fs) ∧
          parseTestCaseFromLLM s
            = .error ("LLM response is not a valid test case object"))) := by
  intro s v h
  unfold parseTestCasesFromLLM parseTestCaseFromLLM
  rw [h]
  cases v <;> simp

/-- C8 witness: a bare null is rejected by the single-object parser with the
not-an-object message. -/
theorem c8_parse_shapes_witness :
    parseTestCaseFromLLM ("null") = .error ("LLM response is not a valid test case object") := by
  rcases (c8_parse_shapes ("null") JVal.null rfl).2 with ⟨fs, hfs, -⟩ | ⟨⟨es, hes⟩, -⟩ | ⟨-, -, he⟩
  · exact JVal.noConfusion hfs
  · exact JVal.noConfusion hes
  · exact he

/-- C1: generating 3 cases into an empty suite numbers them TC-002, TC-003,
TC-004 rather than the claimed TC-001, TC-002, TC-003: normalizeTestCases
passes existingTestCases.length + index + 1 to normalizeTestCase, which adds
1 again when it builds the identifier. -/
theorem c1_initial_ids :
    (generateCasesParse ("[\x7b\x7d, \x7b\x7d, \x7b\x7d]")).map
        (List.map (fun t => t.testId))
      = .ok ["TC-002", "TC-003", "TC-004"] ∧
    (["TC-002", "TC-003", "TC-004"] : List String) ≠ ["TC-001", "TC-002", "TC-003"] :=
  ⟨rfl, by decide⟩

/-- C2: the refine route's repair loop re-parses the original cleaned text
instead of the corrective response it stored: with unparseable input and a
corrective response that is itself perfectly valid JSON, the loop still ends
in a parse error after 2 parse attempts and 1 correction call (second
conjunct: that same corrective content parses fine on its own); a failing
correction call ends the loop with the after-all-attempts error. -/
theorem c2_repair_loop :
    refineParseLoop ("not json")
        (.ok (renderJson (JVal.obj [("testId", JVal.str "TC-001")])))
      = ⟨.error ("SyntaxError: JSON.parse failed"), 2, 1⟩ ∧
    parseTestCaseFromLLM (renderJson (JVal.obj [("testId", JVal.str "TC-001")]))
      = .ok (JVal.obj [("testId", JVal.str "TC-001")]) ∧
    refineParseLoop ("not json") (.error ())
      = ⟨.error ("Failed to parse JSON after all attempts"), 1, 1⟩ :=
  ⟨rfl, rfl, rfl⟩

/-- C4: normalization never emits a testId already claimed: the produced
identifier is absent from the incoming set and is added to it; a generated
identifier is the least free TC number at or above index+1 (the while-loop
probe); concretely the empty record at position 2 against TC-001 and TC-002
gets TC-003; and a normalized batch has pairwise-distinct testIds, none of
them colliding with the existing records. -/
theorem c4_unique_ids :
    (∀ (tc : RawTestCase) (index : Nat) (S : List String),
      (normalizeTestCase tc index (some S)).1.testId ∉ S ∧
      (normalizeTestCase tc index (some S)).2
        = some ((normalizeTestCase tc index (some S)).1.testId :: S)) ∧
    (∀ (tc : RawTestCase) (index : Nat) (S : List String),
      (tc.testId = none ∨ tc.testId = some "") →
      ∃ k, (normalizeTestCase tc index (some S)).1.testId = tcId k ∧ index + 1 ≤ k ∧
        tcId k ∉ S ∧ ∀ j, index + 1 ≤ j → j < k → tcId j ∈ S) ∧
    (normalizeTestCase {} 2 (some ["TC-001", "TC-002"])).1.testId = "TC-003" ∧
    (∀ (partials : List RawTestCase) (existing : List TestCase),
      ((normalizeTestCases partials existing).map (fun t => t.testId)).Nodup ∧
      ∀ t ∈ normalizeTestCases partials existing,
        t.testId ∉ existing.map (fun tc => tc.testId)) := by
  refine ⟨normalizeTestCase_fresh, ?_, by decide, ?_⟩
  · intro tc index S habs
    unfold normalizeTestCase
    simp only [jsOr_absent habs]
    by_cases hmem : tcId (index + 1) ∈ S
    · rw [if_pos hmem]
      obtain ⟨hfree, hge, hleast⟩ := probeFree_spec S (S.length + 1) (index + 1)
        (tcId_range_free S (index + 1))
      exact ⟨probeFree S (S.length + 1) (index + 1), rfl, hge, hfree, hleast⟩
    · rw [if_neg hmem]
      exact ⟨index + 1, rfl, Nat.le_refl _, hmem,
        fun j h1 h2 => absurd (Nat.lt_of_le_of_lt h1 h2) (Nat.lt_irrefl _)⟩
  · intro partials existing
    exact normalizeTestCasesGo_fresh partials existing.length 0
      (existing.map (fun tc => tc.testId))

/-- C4 witness: the probe characterization instantiated for the empty record
at position 2 against the set of TC-001, TC-002, TC-003. -/
theorem c4_unique_ids_witness :
    ∃ k, (normalizeTestCase {} 2 (some ["TC-001", "TC-002", "TC-003"])).1.testId = tcId k ∧
      3 ≤ k ∧ tcId k ∉ (["TC-001", "TC-002", "TC-003"] : List String) ∧
      ∀ j, 3 ≤ j → j < k → tcId j ∈ (["TC-001", "TC-002", "TC-003"] : List String) :=
  c4_unique_ids.2.1 {} 2 (["TC-001", "TC-002", "TC-003"]) (Or.inl rfl)

/-- C7: cleaning strips a leading code fence (with or without a json tag in
any letter case) and the trailing fence from around a canonical array
rendering, after which the batch parser recovers exactly the rendered array;
and cleaning inserts the missing comma between a preconditions string field
and an immediately following steps key. -/
theorem c7_cleaning :
    (∀ (vs : List JVal) (tag : List Char), fenceTagOk tag →
      parseTestCasesFromLLM (String.mk (fenceWrapL tag (jvRender (JVal.arr vs))))
        = .ok vs) ∧
    cleanLLMJsonResponse ("\"preconditions\": \"X\" \"steps\"")
      = "\"preconditions\": \"X\", \"steps\"" := by
  constructor
  · intro vs tag htag
    unfold parseTestCasesFromLLM
    have hclean : cleanLLMJsonResponse (String.mk (fenceWrapL tag (jvRender (JVal.arr vs))))
        = renderJson (JVal.arr vs) := by
      show String.mk (cleanLLMJsonResponseL
          (String.mk (fenceWrapL tag (jvRender (JVal.arr vs)))).data)
        = renderJson (JVal.arr vs)
      rw [show (String.mk (fenceWrapL tag (jvRender (JVal.arr vs)))).data
          = fenceWrapL tag (jvRender (JVal.arr vs)) from rfl]
      rw [cleanLLM_fenceWrap tag htag vs]
      rfl
    rw [hclean, parseJson_renderJson]
  · rfl

/-- C7 witness: a json-tagged fence around the empty array parses to the
empty batch. -/
theorem c7_cleaning_witness :
    parseTestCasesFromLLM (String.mk (fenceWrapL ("json".data) (jvRender (JVal.arr []))))
      = .ok [] :=
  c7_cleaning.1 [] ("json".data)
    (Or.inr ⟨'j', 's', 'o', 'n', rfl, by decide, by decide, by decide, by decide⟩)

/-- C6: the add-more-cases route compresses context only above the token
threshold: at or below 5000 estimated tokens the existing records are passed
through and serialized in full into the prompt section with no compression
call; above the threshold exactly one compression call is made, whose
successful content (trimmed) becomes the summary context, and whose failure
falls back to the first 2000 characters of the serialization. -/
theorem c6_context_threshold :
    ∀ (existing : List TestCase) (oracle : Except Unit String),
      (estimateTokens (stringifyTestCases existing) ≤ TOKEN_LIMIT_THRESHOLD →
        addMoreContext existing oracle = (.verbatim existing, 0) ∧
        existingTestCasesText (addMoreContext existing oracle).1
          = "EXISTING TEST CASES (" ++ numStr existing.length ++ " total):\n"
            ++ stringifyTestCases existing
            ++ "\n\nIMPORTANT: Review these carefully and generate test cases that are DISTINCTLY different.") ∧
      (estimateTokens (stringifyTestCases existing) > TOKEN_LIMIT_THRESHOLD →
        (addMoreContext existing oracle).2 = 1 ∧
        (∀ s, oracle = .ok s →
          (addMoreContext existing oracle).1 = .synopsis (jsTrim s)) ∧
        (oracle = .error () →
          (addMoreContext existing oracle).1 = .synopsis
            ("Summary of " ++ numStr existing.length ++ " existing test cases:\n"
              ++ String.mk ((stringifyTestCases existing).data.take 2000) ++ "..."))) := by
  intro existing oracle
  constructor
  · intro h
    have hcond : ¬ (estimateTokens (stringifyTestCases existing) > TOKEN_LIMIT_THRESHOLD) := by
      omega
    simp only [addMoreContext]
    rw [if_neg hcond]
    exact ⟨rfl, rfl⟩
  · intro h
    simp only [addMoreContext]
    rw [if_pos h]
    refine ⟨rfl, ?_, ?_⟩
    · intro s hs
      rw [hs]
      rfl
    · intro he
      rw [he]
      rfl

theorem escCh_length_pos (c : Char) : 1 ≤ (escCh c).length := by
  unfold escCh
  split
  any_goals simp
  split <;> simp

theorem flatten_map_escCh_length (l : List Char) :
    l.length ≤ ((l.map escCh).flatten).length := by
  induction l with
  | nil => simp
  | cons c cs ih =>
    simp only [List.map_cons, List.flatten_cons, List.length_append, List.length_cons]
    have := escCh_length_pos c
    omega

theorem stringifyTestCasesL_one_length (tc : TestCase) :
    tc.description.data.length ≤ (stringifyTestCasesL [tc]).length := by
  simp only [stringifyTestCasesL, stringifyTestCaseL, stringifyFieldL, renderStrL, escBody,
    List.map_nil, List.flatten_nil, List.length_append, List.length_cons, List.append_nil]
  have := flatten_map_escCh_length tc.description.data
  omega

theorem c6big_over_threshold :
    estimateTokens (stringifyTestCases [c6big]) > TOKEN_LIMIT_THRESHOLD := by
  have hdesc : c6big.description.data.length = 20100 := by
    show (List.replicate 20100 'a').length = 20100
    exact List.length_replicate ..
  have hlen : 20100 ≤ (stringifyTestCasesL [c6big]).length := by
    have := stringifyTestCasesL_one_length c6big
    omega
  have hslen : (stringifyTestCases [c6big]).length = (stringifyTestCasesL [c6big]).length := rfl
  have hne : stringifyTestCases [c6big] ≠ "" := by
    intro h
    rw [h] at hslen
    simp at hslen
    omega
  unfold estimateTokens
  rw [if_neg hne]
  have hdiv : 5001 ≤ ((stringifyTestCases [c6big]).length + 3) / 4 :=
    (Nat.le_div_iff_mul_le (by omega)).mpr (by omega)
  unfold TOKEN_LIMIT_THRESHOLD
  omega

/-- C6 witness: the empty suite stays verbatim with no compression call; a
suite whose serialization has more than 20000 characters crosses the
threshold and makes exactly one compression call. -/
theorem c6_context_threshold_witness :
    addMoreContext [] (.error ()) = (.verbatim [], 0) ∧
    (addMoreContext [c6big] (.error ())).2 = 1 := by
  constructor
  · exact ((c6_context_threshold [] (.error ())).1 (by decide)).1
  · exact ((c6_context_threshold [c6big] (.error ())).2 c6big_over_threshold).1
